import Mathlib

/-!
Verification development for the ecomcrawler repository.

The repository's core is embedded shallowly:
* `src/src/utils/url.utils.js` (first document): `normalizeUrl`, `isProductUrl`,
  `isCategoryUrl`, `shouldExcludeUrl`, `isSameDomain`, `getNormalizedDomain`,
  `getStartingPoints`.  The JavaScript `new URL` constructor is modelled by
  `parseUrlL` for hierarchical `scheme://authority/path?query#fragment` URLs;
  strings the model cannot parse follow the same catch/fail-open branches the
  code has for a throwing `new URL`.  Regular expressions are translated to
  executable character-list matchers with JS `RegExp.test` (search-anywhere)
  semantics.
* `src/src/crawlers/base.crawler.js` (first document): `queueLinks` and the
  `crawl` main loop (page navigation and DOM access are abstracted into a
  `web : String → List String` oracle for `extractLinks` and a
  `dom : String → Bool` oracle for `isProductPageByDOM`).
* `src/src/crawler.js`: the `crawlSite` prioritized loop.
* the service-layer `crawlDomain` / `stopCrawler` / heartbeat watchdog and the
  controller-layer `crawlDomain` guard.

All definitions are executable; theorems about the claims follow at the end.
-/

namespace Ecom

/-! ## Character and list utilities -/

def isDigitC (c : Char) : Bool := '0' ≤ c && c ≤ '9'

def isAlphaC (c : Char) : Bool := ('a' ≤ c && c ≤ 'z') || ('A' ≤ c && c ≤ 'Z')

/-- JS `\w` character class: letters, digits and underscore. -/
def isWordC (c : Char) : Bool := isAlphaC c || isDigitC c || c = '_'

/-- the `[\w-]` character class. -/
def isWordDashC (c : Char) : Bool := isWordC c || c = '-'

/-- Longest prefix of `l` whose characters all fail `p` (`p` marks delimiters). -/
def takeUntil (p : Char → Bool) : List Char → List Char
  | [] => []
  | c :: t => if p c then [] else c :: takeUntil p t

/-- Remainder of `l` from the first character satisfying `p` on. -/
def dropUntil (p : Char → Bool) : List Char → List Char
  | [] => []
  | c :: t => if p c then c :: t else dropUntil p t

/-- `begins pat l` holds when `pat` is an initial run of `l`. -/
def begins : List Char → List Char → Bool
  | [], _ => true
  | _ :: _, [] => false
  | p :: ps, c :: cs => p = c && begins ps cs

/-- `stripPfx pat l` removes an initial run `pat` from `l` when present. -/
def stripPfx : List Char → List Char → Option (List Char)
  | [], l => some l
  | _ :: _, [] => none
  | p :: ps, c :: cs => if p = c then stripPfx ps cs else none

/-- `scanFor m l` tests `m` on every suffix of `l` (JS unanchored regex search). -/
def scanFor (m : List Char → Bool) : List Char → Bool
  | [] => m []
  | c :: t => m (c :: t) || scanFor m t

/-- Substring test, as JS `String.prototype.includes`. -/
def containsSeq (pat l : List Char) : Bool := scanFor (begins pat) l

/-- Suffix test, as JS `String.prototype.endsWith`. -/
def endsSeq (pat l : List Char) : Bool := begins pat.reverse l.reverse

/-- Lowercasing, as JS `String.prototype.toLowerCase` on ASCII data. -/
def lowerChars (l : List Char) : List Char := l.map Char.toLower

def headIsSlash : List Char → Bool
  | [] => false
  | c :: _ => c = '/'


/-- `true` when the list contains two adjacent slashes. -/
def hasDupSlash : List Char → Bool
  | [] => false
  | c :: t => (c = '/' && headIsSlash t) || hasDupSlash t

/-- Worker for `collapseSlashes`; the flag records whether the previous kept
character was a slash (then further slashes of the same run are dropped). -/
def collapseAux : Bool → List Char → List Char
  | _, [] => []
  | prevSlash, c :: t =>
    if c = '/' then
      if prevSlash then collapseAux true t else '/' :: collapseAux true t
    else c :: collapseAux false t

/-- JS `pathname.replace(/\/+/g, '/')`: collapse every run of slashes to one. -/
def collapseSlashes (l : List Char) : List Char := collapseAux false l

/-- JS `pathname.replace(/\/$/, '')`: drop a single trailing slash. -/
def stripTrailingSlash (l : List Char) : List Char :=
  if headIsSlash l.reverse then (l.reverse.drop 1).reverse else l

/-- Split on a delimiter keeping only nonempty pieces; `cur` accumulates the
current piece in reverse. -/
def splitNonempty (d : Char) (cur : List Char) : List Char → List (List Char)
  | [] => if cur.isEmpty then [] else [cur.reverse]
  | c :: t =>
    if c = d then
      if cur.isEmpty then splitNonempty d [] t else cur.reverse :: splitNonempty d [] t
    else splitNonempty d (c :: cur) t

/-- `split('/')` followed by `filter(Boolean)`: the nonempty slash-separated
segments. -/
def splitSegs (l : List Char) : List (List Char) := splitNonempty '/' [] l

/-! ## The URL model

`JsUrl` models the result of a successful `new URL(u)` for a hierarchical
URL `scheme://authority path query fragment`.  `query` keeps its leading `?`
and `frag` its leading `#`, matching the JS `search`/`hash` accessors used by
the source.  Character case of scheme and host is preserved (the source only
ever feeds the classifier lowercased strings where case matters).  Strings
without a `://`, or with a malformed scheme or authority, are unparseable and
take the source's `catch` branches. -/

structure JsUrl where
  scheme : List Char
  auth : List Char
  path : List Char
  query : List Char
  frag : List Char
  deriving Repr, DecidableEq

/-- Split `l` at the first occurrence of the literal `://`. -/
def splitScheme : List Char → Option (List Char × List Char)
  | [] => none
  | c :: rest =>
    if c = ':' && begins ['/', '/'] rest then some ([], rest.drop 2)
    else
      match splitScheme rest with
      | none => none
      | some (a, b) => some (c :: a, b)

def schemeCharOk (c : Char) : Bool := isAlphaC c || isDigitC c || c = '+' || c = '-' || c = '.'

def schemeOk : List Char → Bool
  | [] => false
  | c :: t => isAlphaC c && t.all schemeCharOk

/-- Characters the WHATWG parser forbids inside a hostname (the ones that make
`new URL` throw); `/`, `?`, `#` cannot occur because the authority stops there. -/
def hostCharOk (c : Char) : Bool :=
  !(c = ' ' || c = '\t' || c = '\n' || c = '\r' || c = '@' || c = '[' ||
    c = ']' || c = '\\' || c = '^' || c = '|' || c = '<' || c = '>')

/-- Validity of the authority: a nonempty hostname of allowed characters,
optionally followed by `:` and a numeric port. -/
def authOk (auth : List Char) : Bool :=
  let host := takeUntil (· = ':') auth
  let rest := dropUntil (· = ':') auth
  !host.isEmpty && host.all hostCharOk &&
    (match rest with
     | [] => true
     | _ :: port => port.all isDigitC)

def authDelim (c : Char) : Bool := c = '/' || c = '?' || c = '#'

def qfDelim (c : Char) : Bool := c = '?' || c = '#'

/-- Model of `new URL(u)` on character lists; `none` models a thrown
`TypeError`. -/
def parseUrlL (l : List Char) : Option JsUrl :=
  match splitScheme l with
  | none => none
  | some (sch, rest) =>
    if schemeOk sch then
      let auth := takeUntil authDelim rest
      let rest2 := dropUntil authDelim rest
      let path := takeUntil qfDelim rest2
      let rest3 := dropUntil qfDelim rest2
      let query := takeUntil (· = '#') rest3
      let frag := dropUntil (· = '#') rest3
      if authOk auth then
        some { scheme := sch, auth := auth,
               path := if path.isEmpty then ['/'] else path,
               query := query, frag := frag }
      else none
    else none

def parseUrl (s : String) : Option JsUrl := parseUrlL s.toList

/-- Model of `URL.prototype.toString` for the modelled URLs. -/
def serializeL (u : JsUrl) : List Char :=
  u.scheme ++ ':' :: '/' :: '/' :: (u.auth ++ u.path ++ u.query ++ u.frag)

/-- The `hostname` accessor: the authority up to a port separator. -/
def JsUrl.hostname (u : JsUrl) : List Char := takeUntil (· = ':') u.auth

/-- The JS `pathname` setter for special schemes: an empty path serializes as
`/`, a relative one gains a leading slash. -/
def setPathname (p : List Char) : List Char :=
  if p.isEmpty then ['/'] else if headIsSlash p then p else '/' :: p

/-- The path transform of `normalizeUrl`:
`pathname.replace(/\/+/g, '/').replace(/\/$/, '')` followed by the `pathname`
setter. -/
def pathNorm (p : List Char) : List Char :=
  setPathname (stripTrailingSlash (collapseSlashes p))

/-- The record `normalizeUrl` serializes on parse success. -/
def normRec (u : JsUrl) : JsUrl :=
  { scheme := u.scheme, auth := u.auth, path := pathNorm u.path, query := [], frag := [] }

/-- `normalizeUrl` from `src/src/utils/url.utils.js`: clear `search` and
`hash`, collapse repeated slashes in the path, strip one trailing slash, and
reserialize; on parse failure return the input unchanged. -/
def normalizeUrl (s : String) : String :=
  match parseUrlL s.toList with
  | none => s
  | some u => String.mk (serializeL (normRec u))

/-! ## Classifier regular expressions

Each JS regex used by the classifier is translated into an executable matcher
with `RegExp.test` semantics (search at every position, `$` anchors the end).
Character classes that exclude their following delimiter are matched by
maximal munch, which coincides with backtracking semantics here. -/

def headIs (p : Char → Bool) : List Char → Bool
  | [] => false
  | c :: _ => p c

/-- Search for `pat` followed by a position where `k` holds. -/
def afterPat (pat : List Char) (k : List Char → Bool) (l : List Char) : Bool :=
  scanFor (fun s =>
    match stripPfx pat s with
    | some r => k r
    | none => false) l

/-- `[^\/]+` then `pat`: at least one non-slash character followed by `pat`. -/
def segThen (pat : List Char) : List Char → Bool
  | [] => false
  | c :: t => !(c = '/') && (begins pat t || segThen pat t)

/-- the regex `\/collections\/[^\/]+\/products\//`. -/
def matchCollectionsProducts (l : List Char) : Bool :=
  afterPat "/collections/".toList (segThen "/products/".toList) l

/-- `\d{n,}` at the head: the first `n` characters are digits. -/
def firstNDigits : Nat → List Char → Bool
  | 0, _ => true
  | _ + 1, [] => false
  | n + 1, c :: t => isDigitC c && firstNDigits n t

/-- the regex `\/p\/\d{5,}`. -/
def matchPDigits5 (l : List Char) : Bool := afterPat "/p/".toList (firstNDigits 5) l

/-- the tail `\/?\d+` of pattern `\/p\/[\w-]+\/?\d+`. -/
def optSlashDigit (l : List Char) : Bool :=
  headIs isDigitC l ||
    (match l with
     | '/' :: t => headIs isDigitC t
     | _ => false)

/-- `[\w-]+\/?\d+` at the head (with full backtracking over the `+`). -/
def p3tail : List Char → Bool
  | [] => false
  | c :: t => isWordDashC c && (optSlashDigit t || p3tail t)

/-- `\/p-mp[\w\d]+` at the head of the remainder after some `[\w-]+` run. -/
def beginsPmpW (l : List Char) : Bool :=
  match stripPfx "/p-mp".toList l with
  | some r => headIs isWordC r
  | none => false

def i5seg : List Char → Bool
  | [] => false
  | c :: t => isWordDashC c && (beginsPmpW t || i5seg t)

/-- `\d+\/buy` read in reverse: digits (at least one) then a slash. -/
def digitsThenSlash : List Char → Bool
  | [] => false
  | c :: t => isDigitC c && (headIsSlash t || digitsThenSlash t)

/-- the regex `\/[\d]+\/buy$` (matched from the reversed string). -/
def matchNumBuyEnd (l : List Char) : Bool :=
  match stripPfx "/buy".toList.reverse l.reverse with
  | some r => digitsThenSlash r
  | none => false

/-- The inner `productPatterns` loop of `isProductUrl`, applied to a pathname. -/
def pathnameProductPatterns (p : List Char) : Bool :=
  afterPat "/products/".toList (headIs isWordDashC) p ||
  afterPat "/product/".toList (headIs isWordDashC) p ||
  afterPat "/p/".toList p3tail p ||
  afterPat "/p-mp".toList (headIs isWordC) p ||
  scanFor (fun s =>
    match s with
    | '/' :: t => i5seg t
    | _ => false) p ||
  matchNumBuyEnd p ||
  afterPat "/product-detail/".toList (headIs isWordDashC) p

/-- The numeric-segment heuristic: skipped on category-looking paths, else
true when some nonempty path segment is 5 or more digits. -/
def numericSegCheck (p : List Char) : Bool :=
  !(containsSeq "/category/".toList p) && !(containsSeq "/collection".toList p) &&
  !(containsSeq "/shop/".toList p) && !(containsSeq "/search".toList p) &&
  (splitSegs p).any (fun seg => decide (5 ≤ seg.length) && seg.all isDigitC)

/-- The `URLSearchParams` key list of a `search` string: drop the leading `?`,
split on `&`, keep nonempty pairs, take each key up to `=`. -/
def queryKeys (q : List Char) : List (List Char) :=
  let body := match q with
    | '?' :: t => t
    | t => t
  (splitNonempty '&' [] body).map (takeUntil (· = '='))

def hasQueryParam (u : JsUrl) (name : List Char) : Bool :=
  (queryKeys u.query).any (· == name)

/-- The fallback `url.match(/https?:\/\/([^\/]+)/i)` capture: the hostname-ish
run after the first `http://` or `https://`, or `[]` when there is no match
(`domain = ''`).  The subject is already lowercased. -/
def domainFallback : List Char → List Char
  | [] => []
  | c :: t =>
    match (stripPfx "https://".toList (c :: t)).orElse
        (fun _ => stripPfx "http://".toList (c :: t)) with
    | some r => if headIs (fun x => !(x = '/')) r then takeUntil (· = '/') r else domainFallback t
    | none => domainFallback t

/-! ## The classifiers of `src/src/utils/url.utils.js` (first document) -/

/-- `isProductUrl` on a string argument.  The sequential early-`return true`
checks of the source are an or-chain because every check is pure. -/
def isProductUrl (s : String) : Bool :=
  if s = "" then false
  else
    let url := lowerChars s.toList
    let domain : List Char :=
      match parseUrlL url with
      | some u => u.hostname
      | none => domainFallback url
    (containsSeq "tatacliq.com".toList domain && containsSeq "/p-mp".toList url) ||
    (containsSeq "westside.com".toList domain &&
      (containsSeq "/products/".toList url || matchCollectionsProducts url)) ||
    (containsSeq "nykaafashion.com".toList domain && matchPDigits5 url) ||
    (containsSeq "virgio.com".toList domain &&
      (containsSeq "/products/".toList url || containsSeq "/product/".toList url ||
       containsSeq "/product-detail/".toList url)) ||
    (containsSeq "ajio.com".toList domain && containsSeq "/p/".toList url) ||
    (containsSeq "myntra.com".toList domain &&
      (endsSeq "/buy".toList url || containsSeq "/buy?".toList url)) ||
    (match parseUrlL url with
     | some u => pathnameProductPatterns u.path || numericSegCheck u.path
     | none => false) ||
    (match parseUrlL url with
     | some u =>
       hasQueryParam u "pid".toList || hasQueryParam u "productId".toList ||
       hasQueryParam u "product_id".toList || hasQueryParam u "itemId".toList ||
       hasQueryParam u "sku".toList || hasQueryParam u "variant".toList
     | none => false)

/-- A JS argument that may be `null`, `undefined` or a string. -/
inductive JsValue where
  | vnull
  | vundef
  | vstr (s : String)
  deriving Repr, DecidableEq

/-- `isProductUrl` on an arbitrary argument: the `!url || typeof url
!== 'string'` guard rejects `null`, `undefined` and `''`. -/
def isProductUrlV : JsValue → Bool
  | .vstr s => isProductUrl s
  | _ => false

def menWomenKids (p : List Char) : Bool :=
  scanFor (fun s =>
    [("/men" : String), "/women", "/kids"].any (fun w =>
      match stripPfx w.toList s with
      | some r => r.isEmpty || headIsSlash r
      | none => false)) p

/-- `isCategoryUrl`: pattern-match the pathname; a throwing `new URL` yields
`false`.  The `/i` flags are realized by lowercasing the subject. -/
def isCategoryUrl (s : String) : Bool :=
  match parseUrlL s.toList with
  | none => false
  | some u =>
    let p := lowerChars u.path
    containsSeq "/collections/".toList p || containsSeq "/c-".toList p ||
    containsSeq "/c/".toList p || containsSeq "/category/".toList p ||
    menWomenKids p

/-- `isCategoryUrl` on an arbitrary argument: `new URL(null)` parses the
string `"null"` (resp. `"undefined"`), which fails, giving `false`. -/
def isCategoryUrlV : JsValue → Bool
  | .vstr s => isCategoryUrl s
  | _ => false

/-- `.(ext)($|\?)` for one extension alternative. -/
def extAfter (ext : String) (s : List Char) : Bool :=
  match stripPfx ('.' :: ext.toList) s with
  | some r => r.isEmpty || headIs (· = '?') r
  | none => false

def matchExcludeExt (l : List Char) : Bool :=
  scanFor (fun s =>
    [("jpg" : String), "jpeg", "png", "gif", "css", "js", "ico", "svg", "webp", "pdf"].any
      (fun e => extAfter e s)) l

/-- `shouldExcludeUrl`: product URLs are never excluded; otherwise the
`EXCLUDE_PATTERNS` list is searched. -/
def shouldExcludeUrl (s : String) : Bool :=
  if isProductUrl s then false
  else
    let l := lowerChars s.toList
    matchExcludeExt l ||
    ([("/cart" : String), "/checkout", "/login", "/register", "/account", "/track",
      "/help", "/search"].any (fun w => containsSeq w.toList l)) ||
    ([("/api" : String), "/graphql", "/rest", "/cdn", "/static"].any
      (fun w => containsSeq w.toList l)) ||
    ([("?utm_" : String), "?fbclid", "?gclid", "?source", "?ref"].any
      (fun w => containsSeq w.toList l)) ||
    s.toList.any (· = '#') ||
    begins "mailto:".toList l || begins "tel:".toList l || begins "javascript:".toList l

def stripWww (h : List Char) : List Char :=
  match stripPfx "www.".toList h with
  | some r => r
  | none => h

/-- `isSameDomain(url, baseDomain)`: the TataCliq luxury-subdomain carve-out,
then hostname equality or dotted-suffix match; any parse failure gives
`false` through the `catch`. -/
def isSameDomain (url baseDomain : String) : Bool :=
  if containsSeq "tatacliq.com".toList baseDomain.toList &&
      containsSeq "luxury.tatacliq.com".toList url.toList then false
  else
    match parseUrlL url.toList with
    | none => false
    | some u1 =>
      let urlHost := stripWww u1.hostname
      let baseChars :=
        if containsSeq "://".toList baseDomain.toList then baseDomain.toList
        else "https://".toList ++ baseDomain.toList
      match parseUrlL baseChars with
      | none => false
      | some u2 =>
        let baseHost := stripWww u2.hostname
        urlHost == baseHost || endsSeq ('.' :: baseHost) urlHost

/-- `isSameDomain` on arbitrary arguments: a `null`/`undefined` on either side
makes some method access throw inside the `try`, giving `false`. -/
def isSameDomainV : JsValue → JsValue → Bool
  | .vstr u, .vstr b => isSameDomain u b
  | _, _ => false

/-- `url.replace(/^https?:\/\/(www\.)?/, '')`. -/
def stripHttpWww (l : List Char) : List Char :=
  let afterScheme :=
    match stripPfx "https://".toList l with
    | some r => some r
    | none => stripPfx "http://".toList l
  match afterScheme with
  | some r =>
    (match stripPfx "www.".toList r with
     | some r2 => r2
     | none => r)
  | none => l

/-- `getNormalizedDomain`. -/
def getNormalizedDomain (s : String) : String :=
  if s = "" then ""
  else
    let d := if containsSeq "://".toList s.toList then s.toList
             else "https://".toList ++ s.toList
    match parseUrlL d with
    | some u => String.mk (stripWww u.hostname)
    | none => String.mk (takeUntil (· = '/') (stripHttpWww s.toList))

/-- `getStartingPoints`.  The `catch` branch observes the already-reassigned
`domain` variable, so its `startsWith('http')` test is evaluated on the
prefixed string, exactly as in the source. -/
def getStartingPoints (s : String) : List String :=
  let d := if !(begins "http://".toList s.toList || begins "https://".toList s.toList)
           then "https://" ++ s else s
  match parseUrlL d.toList with
  | some u =>
    if !(begins "www.".toList u.hostname || begins "luxury.".toList u.hostname ||
         begins "shop.".toList u.hostname) then
      [String.mk ("https://www.".toList ++ u.hostname ++ u.path)]
    else [String.mk (serializeL u)]
  | none =>
    if begins "http".toList d.toList then [d]
    else ["https://www." ++ String.mk (stripWww d.toList)]

/-! ## JS `Set` and `Map` models -/

/-- `Set.prototype.has` on an insertion-ordered set. -/
def listHas (l : List String) (s : String) : Bool := l.any (· == s)

/-- `Set.prototype.add`: append when absent. -/
def setAdd (l : List String) (s : String) : List String :=
  if listHas l s then l else l ++ [s]

/-- `Map.prototype.get` on an association list. -/
def lookupA {α : Type} : List (String × α) → String → Option α
  | [], _ => none
  | (k, v) :: t, d => if k = d then some v else lookupA t d

/-- `Map.prototype.delete`. -/
def eraseA {α : Type} : List (String × α) → String → List (String × α)
  | [], _ => []
  | (k, v) :: t, d => if k = d then eraseA t d else (k, v) :: eraseA t d

/-- `Map.prototype.set`: overwrite in place or append. -/
def setA {α : Type} : List (String × α) → String → α → List (String × α)
  | [], d, v => [(d, v)]
  | (k, w) :: t, d, v => if k = d then (d, v) :: t else (k, w) :: setA t d v

/-! ## `BaseCrawler` of `src/src/crawlers/base.crawler.js` (first document) -/

structure QItem where
  url : String
  depth : Nat
  deriving Repr, DecidableEq

structure BState where
  domain : String
  visited : List String
  productLinks : List String
  queue : List QItem
  failedUrls : List String
  pagesVisited : Nat
  maxPages : Nat
  maxDepth : Nat
  stopRequested : Bool
  deriving Repr, DecidableEq

/-- JS `array.splice(n, 0, a)`. -/
def insertAt (n : Nat) (a : QItem) (l : List QItem) : List QItem :=
  l.take n ++ a :: l.drop n

/-- One iteration of the `for (const link of links)` body of `queueLinks`. -/
def queueLinksStep (depth : Nat) (st : BState) (link : String) : BState :=
  if link = "" then st
  else
    let nl := normalizeUrl link
    if listHas st.visited nl || st.queue.any (·.url == nl) ||
        !(isSameDomain link st.domain) || shouldExcludeUrl link then st
    else if isProductUrl link then
      { st with queue := ⟨link, depth⟩ :: st.queue }
    else if isCategoryUrl link then
      { st with queue := insertAt (min 10 st.queue.length) ⟨link, depth⟩ st.queue }
    else
      { st with queue := st.queue ++ [⟨link, depth⟩] }

/-- The link loop of `queueLinks`, before the capacity trim. -/
def queueLinksCore (st : BState) (links : List String) (depth : Nat) : BState :=
  links.foldl (queueLinksStep depth) st

/-- `queueLinks`: the link loop followed by
`if (queue.length > 1000) queue = queue.slice(0, 1000)`. -/
def queueLinks (st : BState) (links : List String) (depth : Nat) : BState :=
  let st2 := queueLinksCore st links depth
  if 1000 < st2.queue.length then { st2 with queue := st2.queue.take 1000 } else st2

/-- One iteration of the `crawl` main loop.  `web url` stands for the links
`extractLinks` returns after a successful navigation to `url` (redirects are
not modelled, so `page.url()` is the requested URL), and `dom url` for the
`isProductPageByDOM` fallback.  Assumes the guard already held. -/
def bStep (web : String → List String) (dom : String → Bool) (st : BState) : BState :=
  match st.queue with
  | [] => st
  | item :: rest =>
    let st1 := { st with queue := rest }
    let nl := normalizeUrl item.url
    if listHas st1.visited nl || decide (st1.maxDepth < item.depth) then st1
    else
      let st2 := { st1 with visited := setAdd st1.visited nl }
      let currentUrl := item.url
      let isProd := isProductUrl currentUrl || dom currentUrl
      let st3 :=
        if isProd then
          { st2 with productLinks := setAdd st2.productLinks (normalizeUrl currentUrl) }
        else st2
      let st4 :=
        if decide (item.depth < st3.maxDepth) then
          queueLinks st3 (web currentUrl) (item.depth + 1)
        else st3
      { st4 with pagesVisited := st4.pagesVisited + 1 }

/-- The `while` condition of `crawl`. -/
def bGuard (st : BState) : Bool :=
  !st.queue.isEmpty && decide (st.pagesVisited < st.maxPages) && !st.stopRequested

def bRun (web : String → List String) (dom : String → Bool) : Nat → BState → BState
  | 0, st => st
  | n + 1, st => if bGuard st then bRun web dom n (bStep web dom st) else st

/-! ## The indefinite-mode loop guard of the `BaseCrawler` in
`src/unnamed/part_001` (`this.maxPages = options.indefiniteCrawling ?
Infinity : ...`); `none` models `Infinity`. -/

structure IState where
  queue : List String
  pagesVisited : Nat
  noNewProductsCounter : Nat
  maxPages : Option Nat
  stopRequested : Bool
  deriving Repr, DecidableEq

/-- The `while` condition of `part_001`'s `crawl`:
`queue.length > 0 && pagesVisited < maxPages && !stopRequested &&
(maxPages !== Infinity || noNewProductsCounter < MAX_NO_PRODUCT_PAGES)`. -/
def iGuard (st : IState) : Bool :=
  !st.queue.isEmpty &&
  (match st.maxPages with
   | none => true
   | some m => decide (st.pagesVisited < m)) &&
  !st.stopRequested &&
  (match st.maxPages with
   | none => decide (st.noNewProductsCounter < 20)
   | some _ => true)

/-! ## `crawlSite` of `src/src/crawler.js` -/

structure SItem where
  url : String
  priority : Nat
  depth : Nat
  deriving Repr, DecidableEq

structure SState where
  domainName : String
  visited : List String
  queue : List SItem
  productUrls : List String
  failedUrls : List String
  pagesVisited : Nat
  noNewProductsCounter : Nat
  maxPages : Nat
  crawlCancelled : Bool
  deriving Repr, DecidableEq

/-- The sort comparator `(a, b) => b.priority - a.priority || a.depth -
b.depth`: `a` strictly precedes `b` when the comparator is negative. -/
def sLt (a b : SItem) : Bool :=
  decide (b.priority < a.priority) || (a.priority == b.priority && decide (a.depth < b.depth))

/-- Stable insertion sort.  `Array.prototype.sort` is stable, and any two
stable sorts for the same comparator agree, so this equals the JS result. -/
def insertStable (a : SItem) : List SItem → List SItem
  | [] => [a]
  | b :: t => if sLt b a then b :: insertStable a t else a :: b :: t

def sortStable : List SItem → List SItem
  | [] => []
  | a :: t => insertStable a (sortStable t)

/-- the regex `\/[^\/]+\/[^\/]+\/?$`, matched from the reversed string. -/
def revSegSlash (k : List Char → Bool) (l : List Char) : Bool :=
  let seg := takeUntil (· = '/') l
  let rest := dropUntil (· = '/') l
  !seg.isEmpty &&
    (match rest with
     | '/' :: t => k t
     | _ => false)

def twoSegEnd (l : List Char) : Bool :=
  let r := l.reverse
  let r1 := match r with
    | '/' :: t => t
    | t => t
  revSegSlash (revSegSlash (fun _ => true)) r1

/-- `validateNykaaFashionProductUrl` is only consulted when the domain name
contains `nykaafashion`; the sessions modelled here never do, so the branch
keeps `isValidProduct = true`. -/
def sProcessLink (domainName : String) (depth : Nat) (st : SState) (link : String) : SState :=
  let nl := normalizeUrl link
  if listHas st.visited nl || st.queue.any (·.url == nl) then st
  else if !(isSameDomain link domainName) then st
  else if shouldExcludeUrl link && !(isProductUrl link) then st
  else if isProductUrl nl then
    if listHas st.productUrls nl then st
    else { st with productUrls := st.productUrls ++ [nl], noNewProductsCounter := 0 }
  else
    let priority :=
      if isCategoryUrl nl then 3
      else if containsSeq "collection".toList link.toList ||
              containsSeq "shop-by".toList link.toList ||
              containsSeq "products".toList link.toList ||
              twoSegEnd link.toList then 2
      else if depth < 2 then 1
      else 0
    { st with queue := st.queue ++ [⟨nl, priority, depth + 1⟩] }

/-- One iteration of the `crawlSite` main loop: sort by priority, pop, skip
visited, navigate (successfully, to the normalized URL), detect a product
page, extract links through `web`, process them, then update the page count
and the rolling no-new-products counter. -/
def sStep (web : String → List String) (st : SState) : SState :=
  match sortStable st.queue with
  | [] => st
  | item :: rest =>
    let st1 := { st with queue := rest }
    let nl := normalizeUrl item.url
    if listHas st1.visited nl then st1
    else
      let st2 := { st1 with visited := setAdd st1.visited nl }
      let before := st2.productUrls.length
      let st3 :=
        if isProductUrl nl then
          { st2 with productUrls := setAdd st2.productUrls (normalizeUrl nl) }
        else st2
      let st4 := (web nl).foldl (sProcessLink st2.domainName item.depth) st3
      { st4 with
        pagesVisited := st4.pagesVisited + 1,
        noNewProductsCounter :=
          if before < st4.productUrls.length then 0 else st4.noNewProductsCounter + 1 }

/-- The `while` condition of `crawlSite` (no wall-clock budget configured)
together with the in-loop `if (global.crawlCancelled) break`. -/
def sGuard (st : SState) : Bool :=
  !st.queue.isEmpty && decide (st.pagesVisited < st.maxPages) &&
  decide (st.noNewProductsCounter < 20) && !st.crawlCancelled

def sRun (web : String → List String) : Nat → SState → SState
  | 0, st => st
  | n + 1, st => if sGuard st then sRun web n (sStep web st) else st

/-! ## `crawlDomain` of `src/unnamed/part_002` / `part_003` -/

structure DState where
  domain : String
  queue : List String
  visited : List String
  productLinks : List String
  failedUrls : List String
  totalPages : Nat
  maxPages : Nat
  indefiniteCrawling : Bool
  active : Bool
  cancelRequested : Bool
  deriving Repr, DecidableEq

/-- the regex `\/[^\/]+\/p-mp`. -/
def matchSegPmp (l : List Char) : Bool :=
  scanFor (fun s =>
    match s with
    | '/' :: t => segThen "/p-mp".toList t
    | _ => false) l

/-- One iteration of the `processLinks` helper. -/
def processLink (domain : String) (st : DState) (link : String) : DState :=
  if !(isSameDomain link domain) then st
  else
    let nl := normalizeUrl link
    let isTataCliqProduct :=
      containsSeq "tatacliq.com".toList domain.toList &&
        (containsSeq "/p-mp".toList nl.toList || matchSegPmp nl.toList)
    if isProductUrl nl || isTataCliqProduct then
      if listHas st.productLinks nl then st
      else { st with productLinks := st.productLinks ++ [nl] }
    else if !(listHas st.visited nl) then
      { st with queue := st.queue ++ [nl] }
    else st

/-- One iteration of the `crawlDomain` main loop.  `web url = none` models a
navigation error (caught, URL added to `failedUrls`); `some links` a
successful page whose extracted links are processed.  The repeated TataCliq
"Show More" extraction rounds are further `processLink` folds over links
already contained in `web`'s answer. -/
def dStep (web : String → Option (List String)) (st : DState) : DState :=
  match st.queue with
  | [] => st
  | url :: rest =>
    let st1 := { st with queue := rest }
    let nl := normalizeUrl url
    if listHas st1.visited nl then st1
    else
      let st2 := { st1 with visited := setAdd st1.visited nl, totalPages := st1.totalPages + 1 }
      match web url with
      | none => { st2 with failedUrls := setAdd st2.failedUrls url }
      | some links => links.foldl (processLink st2.domain) st2

/-- The loop condition of `crawlDomain`, folding in the in-loop
`if (!settings.indefiniteCrawling && totalPages >= maxPages) break`. -/
def dGuard (st : DState) : Bool :=
  !st.queue.isEmpty && st.active && !st.cancelRequested &&
  (st.indefiniteCrawling || decide (st.totalPages < st.maxPages))

/-- The flag mutation of `part_002`'s `stopCrawler`:
`crawler.cancelRequested = true; crawler.active = false`. -/
def cancelEffect (st : DState) : DState :=
  { st with cancelRequested := true, active := false }

/-- Run the loop with a cooperative cancellation schedule: an external
`stopCrawler` has fired before iteration `i` exactly when `cancelAt = some t`
with `t ≤ i`.  This models `crawler.cancelRequested` being observed at the
top of the loop. -/
def dRun (web : String → Option (List String)) (cancelAt : Option Nat) :
    Nat → Nat → DState → DState
  | 0, _, st => st
  | fuel + 1, i, st =>
    let st1 :=
      match cancelAt with
      | some t => if t ≤ i then cancelEffect st else st
      | none => st
    if dGuard st1 then dRun web cancelAt fuel (i + 1) (dStep web st1) else st1

structure CrawlStatsRec where
  pagesVisited : Nat
  productsFound : Nat
  crawlCompleted : Bool
  deriving Repr, DecidableEq

/-- The persisted `CrawlResult` record (wall-clock fields omitted). -/
structure CrawlResultRec where
  domain : String
  products : List String
  totalLinks : Nat
  stats : CrawlStatsRec
  deriving Repr, DecidableEq

/-- The record `crawlDomain` builds after the loop and writes with
`fs.writeFileSync`: `crawlCompleted = !crawler.cancelRequested`, `products =
Array.from(productLinks)`. -/
def saveCrawlResult (st : DState) : CrawlResultRec :=
  { domain := st.domain
    products := st.productLinks
    totalLinks := st.productLinks.length
    stats :=
      { pagesVisited := st.totalPages
        productsFound := st.productLinks.length
        crawlCompleted := !st.cancelRequested } }

/-- The analogous record of `BaseCrawler.saveResults` (first document of
`base.crawler.js`, lines 760-802): `crawlCompleted: !this.stopRequested`. -/
def saveResultsB (st : BState) : CrawlResultRec :=
  { domain := st.domain
    products := st.productLinks
    totalLinks := st.productLinks.length
    stats :=
      { pagesVisited := st.pagesVisited
        productsFound := st.productLinks.length
        crawlCompleted := !st.stopRequested } }

/-! ## The crawler registry and heartbeat watchdog
(`src/unnamed/part_003` / `src/src/services/crawler.service.js`) -/

structure Registry where
  activeCrawlers : List (String × DState)
  heartbeats : List (String × Nat)
  deriving Repr, DecidableEq

/-- The result object `stopCrawler` builds before tearing the browser down. -/
structure StopResultRec where
  domain : String
  products : List String
  count : Nat
  deriving Repr, DecidableEq

/-- The mutation `stopCrawler` performs on the shared crawler object:
`cancelRequested = true`, `active = false`, `queue.length = 0`. -/
def stoppedStateOf (c : DState) : DState :=
  { c with cancelRequested := true, active := false, queue := [] }

/-- `stopCrawler(domain)`: returns the registry after the stop, the session's
crawler object as its loop now sees it, and the stop result. -/
def stopCrawlerReg (reg : Registry) (d : String) : Registry × Option DState × Option StopResultRec :=
  match lookupA reg.activeCrawlers d with
  | none => (reg, none, none)
  | some c =>
    ({ activeCrawlers := eraseA reg.activeCrawlers d
       heartbeats := eraseA reg.heartbeats d },
     some (stoppedStateOf c),
     some { domain := d, products := c.productLinks, count := c.productLinks.length })

def heartbeatOf (reg : Registry) (d : String) : Nat :=
  match lookupA reg.heartbeats d with
  | some h => h
  | none => 0

/-- `HEARTBEAT_INTERVAL = 5000`, `MAX_MISSED_HEARTBEATS = 3`. -/
def heartbeatInterval : Nat := 5000

/-- The stall condition of the `heartbeatChecker`:
`now - lastHeartbeat > MAX_MISSED_HEARTBEATS * HEARTBEAT_INTERVAL` for a
registered crawler. -/
def isStalled (reg : Registry) (now : Nat) (d : String) : Bool :=
  match lookupA reg.activeCrawlers d with
  | none => false
  | some _ => decide (3 * heartbeatInterval < now - heartbeatOf reg d)

/-- One firing of the `setInterval` watchdog at time `now`: every registered
crawler whose heartbeat is stale is force-stopped via `stopCrawler`. -/
def watchdogTick (now : Nat) (reg : Registry) : Registry :=
  (reg.activeCrawlers.map (·.1)).foldl
    (fun r d => if isStalled reg now d then (stopCrawlerReg r d).1 else r) reg

/-! ## The controller-level `crawlDomain` of `src/unnamed/part_004` -/

/-- The `BaseCrawler` constructor state of `src/unnamed/part_001` as built by
`part_004`: `maxPages = indefiniteCrawling ? Infinity : (maxPages || 200)`,
with `part_004` passing `options.maxPages || 500`. -/
structure BC4 where
  domain : String
  maxPages : Option Nat
  stopRequested : Bool
  deriving Repr, DecidableEq

def mkBaseCrawler (domain : String) (optMaxPages : Option Nat) (indefinite : Bool) : BC4 :=
  let mp := match optMaxPages with
    | some m => if m = 0 then 500 else m
    | none => 500
  { domain := domain
    maxPages := if indefinite then none else some mp
    stopRequested := false }

structure Registry4 where
  crawlers : List (String × BC4)
  deriving Repr, DecidableEq

inductive StartOutcome where
  | alreadyRunning
  | started
  deriving Repr, DecidableEq

/-- The session-start guard of `part_004`'s `crawlDomain` (lines 22-50): a
domain with a registered crawler is rejected with `already_running` and
nothing is constructed; otherwise a fresh `BaseCrawler` is registered. -/
def crawlDomain4Start (reg : Registry4) (domain : String) (optMaxPages : Option Nat)
    (indefinite : Bool) : Registry4 × StartOutcome :=
  let nd := getNormalizedDomain domain
  match lookupA reg.crawlers nd with
  | some _ => (reg, .alreadyRunning)
  | none =>
    ({ crawlers := setA reg.crawlers nd (mkBaseCrawler nd optMaxPages indefinite) }, .started)

/-- A freshly constructed `part_003` crawler state, seeded (for a domain with
no configured category URLs) with the domain itself. -/
def mkDState (domain : String) (maxPages : Nat) (indefinite : Bool) : DState :=
  { domain := domain, queue := [domain], visited := [], productLinks := [], failedUrls := []
    totalPages := 0, maxPages := maxPages, indefiniteCrawling := indefinite
    active := true, cancelRequested := false }

/-- The registration step of `part_003`'s `crawlDomain` (lines 45-108): the
crawler is constructed and `activeCrawlers.set` / `crawlerHeartbeats.set` are
called with no existing-session check. -/
def crawlDomain3Start (reg : Registry) (domain : String) (maxPages : Nat) (indefinite : Bool)
    (now : Nat) : Registry :=
  let c := mkDState domain maxPages indefinite
  { activeCrawlers := setA reg.activeCrawlers domain c
    heartbeats := setA reg.heartbeats domain now }

/-! ## Concrete instances used by the claim theorems -/

/-- The parse of `https://www.a.com/a//b/?x=1#f`. -/
def c9rec : JsUrl :=
  ⟨"https".toList, "www.a.com".toList, "/a//b/".toList, "?x=1".toList, "#f".toList⟩

/-- An idle `BaseCrawler` state for domain `a.com` with the constructor's
fixed settings (`maxPages = 300`, `maxDepth = 3`). -/
def st0 : BState :=
  { domain := "a.com", visited := [], productLinks := [], queue := [],
    failedUrls := [], pagesVisited := 0, maxPages := 300, maxDepth := 3,
    stopRequested := false }

/-- A Generic link of the C1 scenario. -/
def gL : String := "https://www.a.com/about"

/-- A Product link of the C1 scenario. -/
def pL : String := "https://www.a.com/product/shoe1"

/-- A Category link of the C1 scenario. -/
def cL : String := "https://www.a.com/category/shoes"

/-- The C3 trace: the homepage links to the same page under two raw
spellings, `/p1/` and `/p1`, which normalize identically. -/
def u0 : String := "https://www.a.com"

def xA : String := "https://www.a.com/p1/"

def xB : String := "https://www.a.com/p1"

def webC3 (u : String) : List String := if u = u0 then [xA, xB] else []

/-- A DOM oracle that never classifies a page as a product. -/
def domFalse : String → Bool := fun _ => false

def st0C3 : BState := { st0 with queue := [⟨u0, 0⟩] }

/-- A state whose visited set already holds the normalization of `xB`. -/
def stW3 : BState := { st0 with queue := [⟨u0, 0⟩], visited := ["https://www.a.com/p1"] }

/-- A chain of product-free generic pages for the C4 run. -/
def chainUrl (i : Nat) : String := "https://www.a.com/gen" ++ toString i

def webChain (u : String) : List String :=
  if u = "https://www.a.com/" then [chainUrl 0]
  else (List.range 30).filterMap (fun i => if u = chainUrl i then some (chainUrl (i + 1)) else none)

/-- A fresh `crawlSite` state for `a.com` with the default `maxPages = 500`. -/
def sInit : SState :=
  { domainName := "a.com", visited := [], queue := [⟨"https://www.a.com/", 0, 0⟩],
    productUrls := [], failedUrls := [], pagesVisited := 0, noNewProductsCounter := 0,
    maxPages := 500, crawlCancelled := false }

/-- A finite-`maxPages` `part_001` state whose guard fails on the page limit. -/
def iStFin : IState :=
  { queue := ["https://www.a.com/"], pagesVisited := 10, noNewProductsCounter := 99,
    maxPages := some 10, stopRequested := false }

/-- An indefinite-mode `part_001` state whose guard holds. -/
def iStInf : IState :=
  { queue := ["https://www.a.com/"], pagesVisited := 3, noNewProductsCounter := 7,
    maxPages := none, stopRequested := false }

/-- The C5 scenario web: three pages yielding two product links, then a
product-free chain. -/
def dUrl (i : Nat) : String := "https://www.a.com/d" ++ toString i

def p1L : String := "https://www.a.com/product/x1"

def p2L : String := "https://www.a.com/product/x2"

def webC5 (u : String) : Option (List String) :=
  if u = dUrl 0 then some [p1L, dUrl 1]
  else if u = dUrl 1 then some [p2L, dUrl 2]
  else if u = dUrl 2 then some [dUrl 3]
  else if u = dUrl 3 then some [dUrl 4]
  else some []

/-- A fresh `crawlDomain` crawler state seeded with the first chain page. -/
def dInit : DState :=
  { domain := "a.com", queue := [dUrl 0], visited := [], productLinks := [],
    failedUrls := [], totalPages := 0, maxPages := 500, indefiniteCrawling := false,
    active := true, cancelRequested := false }

/-- A registry holding one running session for `a.com` whose heartbeat is
stale. -/
def regW6 : Registry := { activeCrawlers := [("a.com", dInit)], heartbeats := [("a.com", 1000)] }

/-- A mid-run crawler state distinguishable from a fresh construction. -/
def cA : DState :=
  { mkDState "a.com" 500 false with
      productLinks := ["https://www.a.com/product/x1"], totalPages := 3 }

/-- A registry already holding the running session `cA` for `a.com`. -/
def regC7 : Registry := { activeCrawlers := [("a.com", cA)], heartbeats := [("a.com", 100)] }

/-- A `part_004` controller registry already holding a crawler for `a.com`. -/
def reg4C7 : Registry4 := { crawlers := [("a.com", mkBaseCrawler "a.com" (some 500) false)] }

/-- The C8 family of 1001 distinct product links
`https://www.a.com/product/a`, `.../product/ab`, `.../product/abb`, ... -/
def mkLinkL (i : Nat) : List Char := "https://www.a.com/product/a".toList ++ List.replicate i 'b'

def mkLink (i : Nat) : String := String.mk (mkLinkL i)

def cexLinks : List String := mkLink 0 :: (List.range 1000).map (fun j => mkLink (j + 1))

/-! # Lemmas and theorems -/

/-! ## `takeUntil` / `dropUntil` -/

theorem takeUntil_nil (p : Char → Bool) : takeUntil p [] = [] := rfl

theorem takeUntil_cons (p : Char → Bool) (c : Char) (t : List Char) :
    takeUntil p (c :: t) = if p c then [] else c :: takeUntil p t := rfl

theorem dropUntil_cons (p : Char → Bool) (c : Char) (t : List Char) :
    dropUntil p (c :: t) = if p c then c :: t else dropUntil p t := rfl

theorem takeUntil_append_not (p : Char → Bool) (xs ys : List Char)
    (h : ∀ c ∈ xs, p c = false) :
    takeUntil p (xs ++ ys) = xs ++ takeUntil p ys := by
  induction xs with
  | nil => rfl
  | cons c t ih =>
    have hc := h c (List.mem_cons_self ..)
    simp only [List.cons_append, takeUntil_cons, hc, if_neg Bool.false_ne_true]
    simp only [Bool.false_eq_true, if_false, List.cons.injEq, true_and]
    exact ih (fun d hd => h d (List.mem_cons_of_mem _ hd))

theorem dropUntil_append_not (p : Char → Bool) (xs ys : List Char)
    (h : ∀ c ∈ xs, p c = false) :
    dropUntil p (xs ++ ys) = dropUntil p ys := by
  induction xs with
  | nil => rfl
  | cons c t ih =>
    have hc := h c (List.mem_cons_self ..)
    simp only [List.cons_append, dropUntil_cons, hc, Bool.false_eq_true, if_false]
    exact ih (fun d hd => h d (List.mem_cons_of_mem _ hd))

theorem takeUntil_cons_delim (p : Char → Bool) (c : Char) (t : List Char) (h : p c = true) :
    takeUntil p (c :: t) = [] := by
  simp [takeUntil_cons, h]

theorem dropUntil_cons_delim (p : Char → Bool) (c : Char) (t : List Char) (h : p c = true) :
    dropUntil p (c :: t) = c :: t := by
  simp [dropUntil_cons, h]

theorem takeUntil_eq_self (p : Char → Bool) (l : List Char) (h : ∀ c ∈ l, p c = false) :
    takeUntil p l = l := by
  have := takeUntil_append_not p l [] h
  rw [List.append_nil] at this
  rw [this, takeUntil_nil, List.append_nil]

theorem dropUntil_eq_nil (p : Char → Bool) (l : List Char) (h : ∀ c ∈ l, p c = false) :
    dropUntil p l = [] := by
  have := dropUntil_append_not p l [] h
  rw [List.append_nil] at this
  rw [this]
  rfl

theorem mem_takeUntil (p : Char → Bool) (l : List Char) :
    ∀ c ∈ takeUntil p l, p c = false := by
  induction l with
  | nil => intro c hc; simp [takeUntil] at hc
  | cons a t ih =>
    intro c hc
    rw [takeUntil_cons] at hc
    by_cases hp : p a = true
    · simp [hp] at hc
    · have hp' : p a = false := by
        cases hpa : p a
        · rfl
        · exact absurd hpa hp
      rw [if_neg (by simp [hp'])] at hc
      rcases List.mem_cons.mp hc with h1 | h2
      · subst h1; exact hp'
      · exact ih c h2

theorem dropUntil_head_delim (p : Char → Bool) (l : List Char) (c : Char) (t : List Char)
    (h : dropUntil p l = c :: t) : p c = true := by
  induction l with
  | nil => simp [dropUntil] at h
  | cons a s ih =>
    rw [dropUntil_cons] at h
    by_cases hp : p a = true
    · rw [if_pos (by simp [hp])] at h
      cases h
      exact hp
    · have hp' : p a = false := by
        cases hpa : p a
        · rfl
        · exact absurd hpa hp
      rw [if_neg (by simp [hp'])] at h
      exact ih h

/-! ## `splitScheme` -/

theorem splitScheme_append (xs ys : List Char) (h : ∀ c ∈ xs, c ≠ ':') :
    splitScheme (xs ++ ':' :: '/' :: '/' :: ys) = some (xs, ys) := by
  induction xs with
  | nil => simp [splitScheme, begins]
  | cons c t ih =>
    have hc : c ≠ ':' := h c (List.mem_cons_self ..)
    have ht := ih (fun d hd => h d (List.mem_cons_of_mem _ hd))
    simp [splitScheme, hc, ht]

/-! ## `collapseSlashes` -/

theorem headIsSlash_collapseAux_true (l : List Char) :
    headIsSlash (collapseAux true l) = false := by
  induction l with
  | nil => rfl
  | cons c t ih =>
    by_cases hc : c = '/'
    · subst hc; simpa [collapseAux] using ih
    · simp [collapseAux, hc, headIsSlash]

theorem hasDupSlash_cons (c : Char) (t : List Char) :
    hasDupSlash (c :: t) = ((c = '/' && headIsSlash t) || hasDupSlash t) := rfl

theorem headIsSlash_cons (c : Char) (t : List Char) :
    headIsSlash (c :: t) = decide (c = '/') := rfl

theorem eq_slash_of_headIsSlash {c : Char} {t : List Char}
    (h : headIsSlash (c :: t) = true) : c = '/' :=
  of_decide_eq_true h

theorem hasDupSlash_collapseAux (l : List Char) : ∀ b, hasDupSlash (collapseAux b l) = false := by
  induction l with
  | nil => intro b; rfl
  | cons c t ih =>
    intro b
    by_cases hc : c = '/'
    · subst hc
      cases b with
      | true => simpa [collapseAux] using ih true
      | false =>
        simp [collapseAux, hasDupSlash_cons, headIsSlash_collapseAux_true, ih true]
    · simp [collapseAux, hc, hasDupSlash_cons, ih b, ih false]

theorem hasDupSlash_collapseSlashes (l : List Char) : hasDupSlash (collapseSlashes l) = false :=
  hasDupSlash_collapseAux l false

theorem collapseAux_eq_self (l : List Char) :
    ∀ b, hasDupSlash l = false → (b = true → headIsSlash l = false) → collapseAux b l = l := by
  induction l with
  | nil => intro b _ _; rfl
  | cons c t ih =>
    intro b hdup hhead
    rw [hasDupSlash_cons] at hdup
    have hdupt : hasDupSlash t = false := by
      cases hht : hasDupSlash t
      · rfl
      · rw [hht] at hdup; simp at hdup
    by_cases hc : c = '/'
    · subst hc
      have hb : b = false := by
        cases b
        · rfl
        · have := hhead rfl
          simp [headIsSlash] at this
      subst hb
      have hslash : headIsSlash t = false := by
        cases hht : headIsSlash t
        · rfl
        · rw [hht] at hdup; simp at hdup
      simp only [collapseAux, if_pos]
      exact congrArg (List.cons '/') (ih true hdupt (fun _ => hslash))
    · simp only [collapseAux, if_neg hc]
      exact congrArg (List.cons c) (ih false hdupt (by simp))

theorem collapseSlashes_eq_self (l : List Char) (h : hasDupSlash l = false) :
    collapseSlashes l = l :=
  collapseAux_eq_self l false h (by simp)

theorem collapseAux_head_slash (t : List Char) :
    collapseSlashes ('/' :: t) = '/' :: collapseAux true t := by
  simp [collapseSlashes, collapseAux]

theorem mem_collapseAux (l : List Char) : ∀ b c, c ∈ collapseAux b l → c ∈ l := by
  induction l with
  | nil => intro b c hc; simp [collapseAux] at hc
  | cons a t ih =>
    intro b c hc
    by_cases ha : a = '/'
    · subst ha
      cases b with
      | true =>
        simp only [collapseAux, if_pos] at hc
        exact List.mem_cons_of_mem _ (ih true c hc)
      | false =>
        simp only [collapseAux, if_pos] at hc
        rcases List.mem_cons.mp hc with h1 | h2
        · subst h1; exact List.mem_cons_self ..
        · exact List.mem_cons_of_mem _ (ih true c h2)
    · simp only [collapseAux, if_neg ha] at hc
      rcases List.mem_cons.mp hc with h1 | h2
      · subst h1; exact List.mem_cons_self ..
      · exact List.mem_cons_of_mem _ (ih false c h2)


/-! ## `stripTrailingSlash` -/

theorem hasDupSlash_append_right (xs : List Char) (t : List Char) :
    hasDupSlash (xs ++ '/' :: '/' :: t) = true := by
  induction xs with
  | nil => simp [hasDupSlash_cons, headIsSlash]
  | cons c s ih =>
    rw [List.cons_append, hasDupSlash_cons, ih]
    simp

theorem headIsSlash_append (xs ys : List Char) (h : xs ≠ []) :
    headIsSlash (xs ++ ys) = headIsSlash xs := by
  cases xs with
  | nil => exact absurd rfl h
  | cons c t => rfl

theorem hasDupSlash_append_mono (xs ys : List Char) (h : hasDupSlash xs = true) :
    hasDupSlash (xs ++ ys) = true := by
  induction xs with
  | nil => simp [hasDupSlash] at h
  | cons c t ih =>
    rw [List.cons_append, hasDupSlash_cons]
    rw [hasDupSlash_cons] at h
    rcases Bool.or_eq_true_iff.mp h with h1 | h2
    · have hne : t ≠ [] := by
        rcases Bool.and_eq_true_iff.mp h1 with ⟨_, hh⟩
        cases t
        · simp [headIsSlash] at hh
        · simp
      rw [headIsSlash_append t ys hne]
      rw [h1]
      rfl
    · rw [ih h2]
      simp

theorem mem_stripTrailingSlash (l : List Char) : ∀ c ∈ stripTrailingSlash l, c ∈ l := by
  intro c hc
  unfold stripTrailingSlash at hc
  by_cases h : headIsSlash l.reverse = true
  · rw [if_pos h] at hc
    have h1 : c ∈ l.reverse.drop 1 := (List.mem_reverse).mp hc
    have h2 : c ∈ l.reverse := List.mem_of_mem_drop h1
    exact (List.mem_reverse).mp h2
  · rw [if_neg h] at hc
    exact hc

theorem stripTrailingSlash_eq_dropLast (l : List Char) (h : headIsSlash l.reverse = true) :
    stripTrailingSlash l = l.dropLast := by
  unfold stripTrailingSlash
  rw [if_pos h, List.drop_one, List.tail_reverse_eq_reverse_dropLast, List.reverse_reverse]

theorem stripTrailingSlash_eq_self (l : List Char) (h : headIsSlash l.reverse = false) :
    stripTrailingSlash l = l := by
  unfold stripTrailingSlash
  rw [if_neg (by simp [h])]

theorem hasDupSlash_stripTrailingSlash (l : List Char) (h : hasDupSlash l = false) :
    hasDupSlash (stripTrailingSlash l) = false := by
  by_cases hh : headIsSlash l.reverse = true
  · rw [stripTrailingSlash_eq_dropLast l hh]
    cases hd : hasDupSlash l.dropLast
    · rfl
    · exfalso
      rcases hl : l.getLast? with _ | a
      · cases l
        · simp [hasDupSlash] at hd
        · simp at hl
      · have := List.dropLast_append_getLast? a hl
        have hcontra := hasDupSlash_append_mono l.dropLast [a] hd
        rw [this] at hcontra
        rw [h] at hcontra
        exact Bool.false_ne_true hcontra
  · rw [stripTrailingSlash_eq_self l (by cases hb : headIsSlash l.reverse; rfl; exact absurd hb hh)]
    exact h

theorem headIsSlash_stripTrailingSlash (l : List Char) (h : headIsSlash l = true) :
    headIsSlash (stripTrailingSlash l) = true ∨ stripTrailingSlash l = [] := by
  by_cases hh : headIsSlash l.reverse = true
  · rw [stripTrailingSlash_eq_dropLast l hh]
    cases l with
    | nil => simp [headIsSlash] at h
    | cons c t =>
      have hc : c = '/' := eq_slash_of_headIsSlash h
      subst hc
      cases t with
      | nil => right; rfl
      | cons a s => left; rw [List.dropLast_cons₂]; rfl
  · rw [stripTrailingSlash_eq_self l (by cases hb : headIsSlash l.reverse; rfl; exact absurd hb hh)]
    left
    exact h

theorem reverse_stripTrailingSlash_not_slash (l : List Char) (h : hasDupSlash l = false) :
    stripTrailingSlash l = [] ∨ headIsSlash (stripTrailingSlash l).reverse = false := by
  by_cases hh : headIsSlash l.reverse = true
  · rw [stripTrailingSlash_eq_dropLast l hh]
    have hrev : (l.dropLast).reverse = l.reverse.tail := by
      rw [List.tail_reverse_eq_reverse_dropLast]
    rcases hw : l.reverse with _ | ⟨c, w⟩
    · left
      have : l = [] := by
        have := congrArg List.reverse hw
        simpa using this
      simp [this]
    · have hc : c = '/' := by
        rw [hw] at hh
        exact eq_slash_of_headIsSlash hh
      subst hc
      cases hws : headIsSlash w
      · right
        rw [hrev, hw]
        exact hws
      · exfalso
        rcases w with _ | ⟨b, w2⟩
        · simp [headIsSlash] at hws
        · have hb : b = '/' := eq_slash_of_headIsSlash hws
          subst hb
          have hl : l = w2.reverse ++ '/' :: '/' :: [] := by
            simpa using congrArg List.reverse hw
          rw [hl, hasDupSlash_append_right] at h
          exact absurd h (by simp)
  · right
    rw [stripTrailingSlash_eq_self l (by cases hb : headIsSlash l.reverse; rfl; exact absurd hb hh)]
    cases hb : headIsSlash l.reverse
    · rfl
    · exact absurd hb hh

/-! ## `setPathname` and `pathNorm` -/

theorem headIsSlash_setPathname (p : List Char) : headIsSlash (setPathname p) = true := by
  unfold setPathname
  by_cases he : p.isEmpty = true
  · rw [if_pos he]; rfl
  · rw [if_neg he]
    by_cases hs : headIsSlash p = true
    · rw [if_pos hs]; exact hs
    · rw [if_neg hs]; rfl

theorem setPathname_ne_nil (p : List Char) : setPathname p ≠ [] := by
  unfold setPathname
  by_cases he : p.isEmpty = true
  · rw [if_pos he]; simp
  · rw [if_neg he]
    by_cases hs : headIsSlash p = true
    · rw [if_pos hs]
      intro h
      rw [h] at he
      exact he rfl
    · rw [if_neg hs]; simp

theorem setPathname_of_headIsSlash (p : List Char) (h : headIsSlash p = true) :
    setPathname p = p := by
  unfold setPathname
  have hne : p.isEmpty = false := by
    cases p
    · simp [headIsSlash] at h
    · rfl
  rw [if_neg (by simp [hne]), if_pos h]

theorem headIsSlash_pathNorm (p : List Char) : headIsSlash (pathNorm p) = true :=
  headIsSlash_setPathname _

theorem pathNorm_ne_nil (p : List Char) : pathNorm p ≠ [] :=
  setPathname_ne_nil _

theorem mem_pathNorm (p : List Char) : ∀ c ∈ pathNorm p, c ∈ p ∨ c = '/' := by
  intro c hc
  unfold pathNorm setPathname at hc
  set r := stripTrailingSlash (collapseSlashes p) with hr
  by_cases he : r.isEmpty = true
  · rw [if_pos he] at hc
    right
    simpa using hc
  · rw [if_neg he] at hc
    have hmem : c ∈ r → c ∈ p ∨ c = '/' := by
      intro hcr
      left
      exact mem_collapseAux p false c (mem_stripTrailingSlash _ c hcr)
    by_cases hs : headIsSlash r = true
    · rw [if_pos hs] at hc
      exact hmem hc
    · rw [if_neg hs] at hc
      rcases List.mem_cons.mp hc with h1 | h2
      · right; exact h1
      · exact hmem h2

/-- The slash-run-free and trailing-slash-free shape of a normalized path:
renormalizing is the identity. -/
theorem pathNorm_idem (p : List Char) : pathNorm (pathNorm p) = pathNorm p := by
  have hdupc : hasDupSlash (collapseSlashes p) = false := hasDupSlash_collapseSlashes p
  have hdupr : hasDupSlash (stripTrailingSlash (collapseSlashes p)) = false :=
    hasDupSlash_stripTrailingSlash _ hdupc
  have hrevr : stripTrailingSlash (collapseSlashes p) = [] ∨
      headIsSlash (stripTrailingSlash (collapseSlashes p)).reverse = false :=
    reverse_stripTrailingSlash_not_slash (collapseSlashes p) hdupc
  set r := stripTrailingSlash (collapseSlashes p) with hr
  rcases hrn : r with _ | ⟨c, t⟩
  · -- pathNorm p = setPathname [] = "/" and pathNorm "/" = "/"
    have h1 : pathNorm p = ['/'] := by
      unfold pathNorm
      rw [← hr, hrn]
      rfl
    rw [h1]
    rfl
  · have hrev : headIsSlash (c :: t).reverse = false := by
      rcases hrevr with h | h
      · rw [hrn] at h; cases h
      · rw [hrn] at h; exact h
    have hdup : hasDupSlash (c :: t) = false := by rw [← hrn]; exact hdupr
    have h1 : pathNorm p = setPathname (c :: t) := by
      unfold pathNorm
      rw [← hr, hrn]
    by_cases hs : headIsSlash (c :: t) = true
    · -- setPathname is the identity; renormalizing the clean path is too
      rw [h1, setPathname_of_headIsSlash _ hs]
      unfold pathNorm
      rw [collapseSlashes_eq_self _ hdup, stripTrailingSlash_eq_self _ hrev,
        setPathname_of_headIsSlash _ hs]
    · -- setPathname prepends a slash; the result is still clean
      have hc : c ≠ '/' := by
        intro h
        subst h
        exact hs rfl
      have h2 : setPathname (c :: t) = '/' :: c :: t := by
        unfold setPathname
        rw [if_neg (by simp), if_neg hs]
      rw [h1, h2]
      have hdup2 : hasDupSlash ('/' :: c :: t) = false := by
        rw [hasDupSlash_cons, hdup]
        simp [headIsSlash_cons, hc]
      have hrev2 : headIsSlash ('/' :: c :: t).reverse = false := by
        rw [List.reverse_cons, headIsSlash_append _ _ (by simp)]
        exact hrev
      unfold pathNorm
      rw [collapseSlashes_eq_self _ hdup2, stripTrailingSlash_eq_self _ hrev2,
        setPathname_of_headIsSlash _ (by rfl)]

/-! ## Parse/serialize roundtrip -/

theorem schemeOk_no_colon (sc : List Char) (h : schemeOk sc = true) :
    ∀ c ∈ sc, c ≠ ':' := by
  cases sc with
  | nil => intro c hc; simp at hc
  | cons a t =>
    have h2 := Bool.and_eq_true_iff.mp h
    intro c hc
    rcases List.mem_cons.mp hc with h1 | h1
    · subst h1
      intro hcol
      rw [hcol] at h2
      exact absurd h2.1 (by decide)
    · intro hcol
      have := List.all_eq_true.mp h2.2 c h1
      rw [hcol] at this
      exact absurd this (by decide)

theorem parseUrlL_facts (l : List Char) (u : JsUrl) (h : parseUrlL l = some u) :
    schemeOk u.scheme = true ∧ authOk u.auth = true ∧
    (∀ c ∈ u.auth, authDelim c = false) ∧ headIsSlash u.path = true ∧
    (∀ c ∈ u.path, qfDelim c = false) := by
  unfold parseUrlL at h
  rcases hsp : splitScheme l with _ | ⟨sch, rest⟩
  · rw [hsp] at h; cases h
  · rw [hsp] at h
    dsimp only at h
    by_cases hso : schemeOk sch = true
    · rw [if_pos hso] at h
      by_cases hao : authOk (takeUntil authDelim rest) = true
      · rw [if_pos hao] at h
        injection h with h
        subst h
        dsimp only
        refine ⟨hso, hao, mem_takeUntil _ _, ?_, ?_⟩
        · by_cases he : (takeUntil qfDelim (dropUntil authDelim rest)).isEmpty = true
          · rw [if_pos he]
            rfl
          · rw [if_neg he]
            rcases hd : dropUntil authDelim rest with _ | ⟨c, t⟩
            · rw [hd] at he
              exact absurd rfl he
            · have hdel := dropUntil_head_delim authDelim rest c t hd
              rw [hd] at he
              by_cases hq : qfDelim c = true
              · rw [takeUntil_cons_delim _ _ _ hq] at he
                exact absurd rfl he
              · have hq2 : qfDelim c = false := by
                  cases hqc : qfDelim c
                  · rfl
                  · exact absurd hqc hq
                have hslash : c = '/' := by
                  unfold authDelim at hdel
                  unfold qfDelim at hq2
                  rcases Bool.or_eq_true_iff.mp hdel with h1 | h1
                  · rcases Bool.or_eq_true_iff.mp h1 with h2 | h2
                    · exact of_decide_eq_true h2
                    · rw [of_decide_eq_true h2] at hq2
                      simp at hq2
                  · rw [of_decide_eq_true h1] at hq2
                    simp at hq2
                subst hslash
                rw [takeUntil_cons, if_neg (by rw [hq2]; simp)]
                rfl
        · by_cases he : (takeUntil qfDelim (dropUntil authDelim rest)).isEmpty = true
          · rw [if_pos he]
            intro c hc
            rcases List.mem_cons.mp hc with h1 | h1
            · subst h1; rfl
            · simp at h1
          · rw [if_neg he]
            exact mem_takeUntil _ _
      · rw [if_neg hao] at h; cases h
    · rw [if_neg hso] at h; cases h

theorem parse_serialize (u : JsUrl)
    (hs : schemeOk u.scheme = true) (ha : authOk u.auth = true)
    (had : ∀ c ∈ u.auth, authDelim c = false)
    (hp : headIsSlash u.path = true) (hpd : ∀ c ∈ u.path, qfDelim c = false)
    (hq : u.query = []) (hf : u.frag = []) :
    parseUrlL (serializeL u) = some u := by
  rcases u with ⟨sch, auth, path, query, frag⟩
  simp only at hs ha had hp hpd hq hf
  subst hq hf
  rcases hpath : path with _ | ⟨c, pt⟩
  · rw [hpath] at hp; cases hp
  · have hc : c = '/' := by rw [hpath] at hp; exact eq_slash_of_headIsSlash hp
    subst hc
    rw [← hpath]
    unfold serializeL parseUrlL
    simp only
    rw [List.append_nil, List.append_nil]
    rw [splitScheme_append _ _ (schemeOk_no_colon sch hs)]
    dsimp only
    rw [if_pos hs]
    have htake : takeUntil authDelim (auth ++ path) = auth := by
      rw [hpath, takeUntil_append_not _ _ _ had, takeUntil_cons_delim _ _ _ (by decide),
        List.append_nil]
    have hdrop : dropUntil authDelim (auth ++ path) = path := by
      rw [hpath, dropUntil_append_not _ _ _ had, dropUntil_cons_delim _ _ _ (by decide)]
    rw [htake, hdrop]
    rw [takeUntil_eq_self _ _ hpd]
    rw [dropUntil_eq_nil _ _ hpd]
    rw [takeUntil_nil]
    rw [if_pos ha]
    rw [hpath]
    rfl

/-- Claim C2 core on parse success: `normalizeUrl` output reparses to the
normalized record. -/
theorem parse_normalizeUrl (s : String) (u : JsUrl) (h : parseUrlL s.toList = some u) :
    parseUrlL (normalizeUrl s).toList = some (normRec u) := by
  obtain ⟨hs, ha, had, hp, hpd⟩ := parseUrlL_facts _ _ h
  have h1 : normalizeUrl s = String.mk (serializeL (normRec u)) := by
    unfold normalizeUrl
    rw [h]
  rw [h1]
  have h2 : (String.mk (serializeL (normRec u))).toList = serializeL (normRec u) := rfl
  rw [h2]
  apply parse_serialize
  · exact hs
  · exact ha
  · exact had
  · exact headIsSlash_pathNorm _
  · intro c hc
    rcases mem_pathNorm _ c hc with h3 | h3
    · exact hpd c h3
    · subst h3; rfl
  · rfl
  · rfl

theorem normalizeUrl_eq_of_parse (x : String) (v : JsUrl) (h : parseUrlL x.toList = some v) :
    normalizeUrl x = String.mk (serializeL (normRec v)) := by
  unfold normalizeUrl
  rw [h]

theorem normalizeUrl_eq_of_fail (x : String) (h : parseUrlL x.toList = none) :
    normalizeUrl x = x := by
  unfold normalizeUrl
  rw [h]

theorem normRec_normRec (u : JsUrl) : normRec (normRec u) = normRec u := by
  unfold normRec
  simp [pathNorm_idem]

/-! ## Claim theorems -/

/-- Claim C2: for every URL string `u`, `normalizeUrl (normalizeUrl u) =
normalizeUrl u`; this holds both for parseable URLs (the normalized output
reparses and renormalizes to itself) and for unparseable strings, where
`normalizeUrl` returns its input unchanged (fail-open). -/
theorem normalizeUrl_idempotent (s : String) :
    normalizeUrl (normalizeUrl s) = normalizeUrl s := by
  rcases hp : parseUrlL s.toList with _ | u
  · have h1 : normalizeUrl s = s := normalizeUrl_eq_of_fail s hp
    rw [h1]
    exact h1
  · have hrt := parse_normalizeUrl s u hp
    have h2 := normalizeUrl_eq_of_parse (normalizeUrl s) (normRec u) hrt
    rw [h2, normRec_normRec]
    exact (normalizeUrl_eq_of_parse s u hp).symm

theorem hasDupSlash_pathNorm (p : List Char) : hasDupSlash (pathNorm p) = false := by
  have hdupc : hasDupSlash (collapseSlashes p) = false := hasDupSlash_collapseSlashes p
  have hdupr : hasDupSlash (stripTrailingSlash (collapseSlashes p)) = false :=
    hasDupSlash_stripTrailingSlash _ hdupc
  unfold pathNorm setPathname
  set r := stripTrailingSlash (collapseSlashes p) with hr
  by_cases he : r.isEmpty = true
  · rw [if_pos he]
    rfl
  · rw [if_neg he]
    by_cases hs : headIsSlash r = true
    · rw [if_pos hs]
      exact hdupr
    · rw [if_neg hs]
      rw [hasDupSlash_cons, hdupr]
      have hs2 : headIsSlash r = false := by
        cases hb : headIsSlash r
        · rfl
        · exact absurd hb hs
      rw [hs2]
      simp

/-- Claim C9 counterexample: `normalizeUrl` drops the non-tracking query
parameter `page=2` as well — the code clears the whole query string rather
than filtering a tracking-parameter denylist. -/
theorem normalize_keeps_no_query_param_cex :
    normalizeUrl "https://www.a.com/x?page=2&utm_source=y" = "https://www.a.com/x" ∧
    normalizeUrl "https://www.a.com/x?page=2&utm_source=y" ≠ "https://www.a.com/x?page=2" := by
  decide

/-- Claim C9 amended: for every parseable URL, `normalizeUrl` drops the
fragment and the entire query string (every parameter, tracking or not),
collapses repeated path separators, strips a trailing slash, and preserves
the scheme and authority: the output reparses to exactly that record. -/
theorem normalize_drops_query_and_fragment (s : String) (u : JsUrl)
    (h : parseUrlL s.toList = some u) :
    parseUrlL (normalizeUrl s).toList = some (normRec u) ∧
    (normRec u).query = [] ∧ (normRec u).frag = [] ∧
    (normRec u).scheme = u.scheme ∧ (normRec u).auth = u.auth ∧
    (normRec u).path = pathNorm u.path ∧ hasDupSlash ((normRec u).path) = false := by
  refine ⟨parse_normalizeUrl s u h, rfl, rfl, rfl, rfl, rfl, hasDupSlash_pathNorm _⟩

/-- Witness for C9's amended theorem at a concrete URL with repeated
separators, a trailing slash, a query and a fragment. -/
theorem normalize_drops_query_and_fragment_witness :
    parseUrlL ("https://www.a.com/a//b/?x=1#f" : String).toList = some c9rec ∧
    parseUrlL (normalizeUrl "https://www.a.com/a//b/?x=1#f").toList = some (normRec c9rec) := by
  constructor
  · decide
  · exact (normalize_drops_query_and_fragment _ _ (by decide)).1

/-- Claim C10 counterexample: on `https://x tatacliq.com/p-mp9` the URL
parser fails (space in the hostname), yet `isProductUrl` returns `true`
through its regex domain fallback — a parse-failure branch that does not
return `false`. -/
theorem isProductUrl_parse_failure_true_cex :
    parseUrlL ("https://x tatacliq.com/p-mp9" : String).toList = none ∧
    isProductUrlV (.vstr "https://x tatacliq.com/p-mp9") = true := by
  decide

/-- Claim C10 amended: the three classifiers are total and never raise; on
`null`, `undefined` and the empty string each returns `false`, and
`isCategoryUrl` and `isSameDomain` return `false` whenever URL parsing
fails — but `isProductUrl`'s parse-failure branch falls back to raw-string
checks and may return `true`. -/
theorem classifier_parse_failure_behavior (s b : String) (v w : JsValue)
    (hs : parseUrlL s.toList = none) :
    isCategoryUrl s = false ∧ isSameDomain s b = false ∧
    isProductUrlV .vnull = false ∧ isProductUrlV .vundef = false ∧
    isProductUrlV (.vstr "") = false ∧
    isCategoryUrlV .vnull = false ∧ isCategoryUrlV .vundef = false ∧
    isSameDomainV .vnull w = false ∧ isSameDomainV v .vnull = false := by
  refine ⟨?_, ?_, rfl, rfl, by decide, rfl, rfl, ?_, ?_⟩
  · unfold isCategoryUrl
    rw [hs]
  · unfold isSameDomain
    by_cases hb : (containsSeq "tatacliq.com".toList b.toList &&
        containsSeq "luxury.tatacliq.com".toList s.toList) = true
    · rw [if_pos hb]
    · rw [if_neg hb, hs]
  · rfl
  · cases v <;> rfl

/-- Witness for C10's amended theorem at a concrete unparseable string. -/
theorem classifier_parse_failure_behavior_witness :
    parseUrlL ("not a url" : String).toList = none ∧
    isCategoryUrl "not a url" = false ∧ isSameDomain "not a url" "a.com" = false := by
  have h := classifier_parse_failure_behavior "not a url" "a.com" .vnull .vnull (by decide)
  exact ⟨by decide, h.1, h.2.1⟩

/-- Claim C1 counterexample: a page whose links are discovered in the order
[Generic, Product, Category] leaves the queue as [Product, Generic,
Category], so the pops after the Product task return the Generic task before
the Category task — not Product, Category, Generic as claimed.  (The
`splice(min(10, length))` insert puts the Category task after the Generic one
whenever fewer than 10 items are queued.) -/
theorem frontier_pop_order_cex :
    isProductUrl pL = true ∧ isCategoryUrl cL = true ∧
    isProductUrl gL = false ∧ isCategoryUrl gL = false ∧ isProductUrl cL = false ∧
    (queueLinks st0 [gL, pL, cL] 1).queue.map (fun it => it.url) = [pL, gL, cL] ∧
    (queueLinks st0 [gL, pL, cL] 1).queue.map (fun it => it.url) ≠ [pL, cL, gL] := by
  decide

/-- Claim C1 amended: the Frontier is one shared array popped from the head;
a link that passes the dedup/domain/exclusion filters is inserted at the
head if Product (so Products of one page pop in reverse discovery order), at
index `min(10, queue.length)` if Category, and at the tail otherwise. -/
theorem queueLinks_insert_discipline (st : BState) (l : String) (d : Nat)
    (hne : l ≠ "")
    (hvis : listHas st.visited (normalizeUrl l) = false)
    (hq : st.queue.any (fun it => it.url == normalizeUrl l) = false)
    (hdom : isSameDomain l st.domain = true)
    (hexc : shouldExcludeUrl l = false) :
    (queueLinksStep d st l).queue =
      (if isProductUrl l then ⟨l, d⟩ :: st.queue
       else if isCategoryUrl l then insertAt (min 10 st.queue.length) ⟨l, d⟩ st.queue
       else st.queue ++ [⟨l, d⟩]) := by
  unfold queueLinksStep
  rw [if_neg hne]
  have hcond : (listHas st.visited (normalizeUrl l) ||
      st.queue.any (fun it => it.url == normalizeUrl l) ||
      !(isSameDomain l st.domain) || shouldExcludeUrl l) = false := by
    rw [hvis, hq, hdom, hexc]
    rfl
  rw [if_neg (by rw [hcond]; simp)]
  by_cases hp : isProductUrl l = true
  · rw [if_pos hp, if_pos hp]
  · rw [if_neg hp, if_neg hp]
    by_cases hc : isCategoryUrl l = true
    · rw [if_pos hc, if_pos hc]
    · rw [if_neg hc, if_neg hc]

/-- Witness for C1's amended theorem: the Category link of the scenario is
spliced at `min(10, 0) = 0` into the empty queue. -/
theorem queueLinks_insert_discipline_witness :
    (queueLinksStep 1 st0 cL).queue =
      (if isProductUrl cL then ⟨cL, 1⟩ :: st0.queue
       else if isCategoryUrl cL then insertAt (min 10 st0.queue.length) ⟨cL, 1⟩ st0.queue
       else st0.queue ++ [⟨cL, 1⟩]) :=
  queueLinks_insert_discipline st0 cL 1 (by decide) (by decide) (by decide) (by decide)
    (by decide)

theorem listHas_false_not_mem (l : List String) (x : String) (h : listHas l x = false) :
    x ∉ l := by
  intro hx
  unfold listHas at h
  have h2 : l.any (fun y => y == x) = true := List.any_eq_true.mpr ⟨x, hx, beq_self_eq_true x⟩
  rw [h] at h2
  cases h2

theorem setAdd_nodup (l : List String) (x : String) (h : l.Nodup) : (setAdd l x).Nodup := by
  unfold setAdd
  by_cases hh : listHas l x = true
  · rw [if_pos hh]
    exact h
  · have hh2 : listHas l x = false := by
      cases hb : listHas l x
      · rfl
      · exact absurd hb hh
    rw [if_neg (by rw [hh2]; simp)]
    rw [List.nodup_append]
    exact ⟨h, List.nodup_singleton x, by
      intro a ha hb
      rw [List.mem_singleton] at hb
      subst hb
      exact listHas_false_not_mem l a hh2 ha⟩

theorem queueLinksStep_visited (d : Nat) (st : BState) (l : String) :
    (queueLinksStep d st l).visited = st.visited := by
  unfold queueLinksStep
  split
  · rfl
  · dsimp only
    split
    · rfl
    · split
      · rfl
      · split
        · rfl
        · rfl

theorem queueLinksCore_visited (links : List String) (d : Nat) :
    ∀ st : BState, (queueLinksCore st links d).visited = st.visited := by
  induction links with
  | nil => intro st; rfl
  | cons l t ih =>
    intro st
    unfold queueLinksCore at *
    rw [List.foldl_cons, ih, queueLinksStep_visited]

theorem queueLinks_visited (st : BState) (links : List String) (d : Nat) :
    (queueLinks st links d).visited = st.visited := by
  unfold queueLinks
  dsimp only
  split
  · exact queueLinksCore_visited links d st
  · exact queueLinksCore_visited links d st

theorem bStep_visited_nodup (web : String → List String) (dom : String → Bool) (st : BState)
    (h : st.visited.Nodup) : (bStep web dom st).visited.Nodup := by
  unfold bStep
  rcases st.queue with _ | ⟨item, rest⟩
  · exact h
  · dsimp only
    split
    · exact h
    · dsimp only
      have hnod2 : (setAdd st.visited (normalizeUrl item.url)).Nodup := setAdd_nodup _ _ h
      split
      · split
        · rw [queueLinks_visited]
          exact hnod2
        · exact hnod2
      · split
        · rw [queueLinks_visited]
          exact hnod2
        · exact hnod2

/-- Claim C3 counterexample: after two loop iterations over `webC3`, the
queue still holds the raw spelling `/p1` while its normalized form is
already in the visited set — the dedup check compares normalized links
against raw queued URLs, so the visited set and the Frontier are not
disjoint. -/
theorem visited_frontier_overlap_cex :
    (bRun webC3 domFalse 2 st0C3).queue.map (fun it => it.url) = [xB] ∧
    listHas (bRun webC3 domFalse 2 st0C3).visited (normalizeUrl xB) = true := by
  decide

/-- Claim C3 amended: the visited set (a set of normalized URLs) never holds
duplicates at any point of a run, and `queueLinks` never enqueues a link
whose normalized form is already visited at enqueue time; the disjointness
can still break later because a queued raw URL's normalized form may be
visited afterwards. -/
theorem visited_nodup_and_push_guard (web : String → List String) (dom : String → Bool)
    (n : Nat) (st : BState) (l : String) (d : Nat) (hnod : st.visited.Nodup) :
    (bRun web dom n st).visited.Nodup ∧
    (listHas st.visited (normalizeUrl l) = true → queueLinksStep d st l = st) := by
  constructor
  · induction n generalizing st with
    | zero => exact hnod
    | succ k ih =>
      unfold bRun
      split
      · exact ih _ (bStep_visited_nodup web dom st hnod)
      · exact hnod
  · intro hvis
    unfold queueLinksStep
    split
    · rfl
    · dsimp only
      rw [if_pos (by rw [hvis]; simp)]

/-- Witness for C3's amended theorem on the concrete trace. -/
theorem visited_nodup_and_push_guard_witness :
    (bRun webC3 domFalse 2 stW3).visited.Nodup ∧ queueLinksStep 1 stW3 xB = stW3 := by
  have h := visited_nodup_and_push_guard webC3 domFalse 2 stW3 xB 1 (by decide)
  exact ⟨h.1, h.2 (by decide)⟩

/-- Claim C4 counterexample: a `crawlSite` session configured with the
finite default `maxPages = 500` is terminated by the rolling
no-new-products counter after 20 pages — the counter is in the loop
condition regardless of any indefinite-mode configuration. -/
theorem crawlSite_counter_finite_cex :
    ((sRun webChain 25 sInit).maxPages,
     (sRun webChain 25 sInit).pagesVisited,
     (sRun webChain 25 sInit).noNewProductsCounter,
     (sRun webChain 25 sInit).queue.isEmpty,
     (sRun webChain 25 sInit).crawlCancelled,
     sGuard (sRun webChain 25 sInit)) = (500, 20, 20, false, false, false) := by
  decide

/-- Claim C4 amended: in `part_001`'s `BaseCrawler.crawl`, a session with a
finite `maxPages` can only stop because the queue drained, the page limit
was reached or a stop was requested — never because of the no-new-products
counter — while in indefinite mode the guard enforces `counter < 20`; in
`crawlSite`, the guard enforces `counter < 20` for every session. -/
theorem noNewProducts_counter_scope (st : IState) (ss : SState) :
    (∀ m, st.maxPages = some m → iGuard st = false →
      st.queue.isEmpty = true ∨ m ≤ st.pagesVisited ∨ st.stopRequested = true) ∧
    (st.maxPages = none → iGuard st = true → st.noNewProductsCounter < 20) ∧
    (sGuard ss = true → ss.noNewProductsCounter < 20) := by
  refine ⟨?_, ?_, ?_⟩
  · intro m hm hg
    by_cases hq : st.queue.isEmpty = true
    · exact Or.inl hq
    · by_cases hs : st.stopRequested = true
      · exact Or.inr (Or.inr hs)
      · by_cases hp : st.pagesVisited < m
        · exfalso
          have : iGuard st = true := by
            unfold iGuard
            rw [hm]
            have h1 : st.queue.isEmpty = false := by
              cases hb : st.queue.isEmpty
              · rfl
              · exact absurd hb hq
            have h2 : st.stopRequested = false := by
              cases hb : st.stopRequested
              · rfl
              · exact absurd hb hs
            rw [h1, h2]
            dsimp only
            rw [decide_eq_true hp]
            rfl
          rw [hg] at this
          cases this
        · exact Or.inr (Or.inl (Nat.le_of_not_lt hp))
  · intro hm hg
    unfold iGuard at hg
    rw [hm] at hg
    dsimp only at hg
    have h4 := (Bool.and_eq_true_iff.mp hg).2
    exact of_decide_eq_true h4
  · intro hg
    unfold sGuard at hg
    have h3 := (Bool.and_eq_true_iff.mp (Bool.and_eq_true_iff.mp hg).1).2
    exact of_decide_eq_true h3

/-- Witness for C4's amended theorem at concrete states. -/
theorem noNewProducts_counter_scope_witness :
    (iStFin.queue.isEmpty = true ∨ 10 ≤ iStFin.pagesVisited ∨ iStFin.stopRequested = true) ∧
    iStInf.noNewProductsCounter < 20 ∧ sInit.noNewProductsCounter < 20 := by
  refine ⟨(noNewProducts_counter_scope iStFin sInit).1 10 rfl (by decide),
    (noNewProducts_counter_scope iStInf sInit).2.1 rfl (by decide),
    (noNewProducts_counter_scope iStInf sInit).2.2 (by decide)⟩

theorem dGuard_cancelEffect (st : DState) : dGuard (cancelEffect st) = false := by
  unfold dGuard cancelEffect
  simp

theorem dRun_none_succ (web : String → Option (List String)) (fuel i : Nat) (st : DState) :
    dRun web none (fuel + 1) i st =
      if dGuard st then dRun web none fuel (i + 1) (dStep web st) else st := rfl

theorem dRun_some_succ (web : String → Option (List String)) (t fuel i : Nat) (st : DState) :
    dRun web (some t) (fuel + 1) i st =
      (if dGuard (if t ≤ i then cancelEffect st else st) = true
       then dRun web (some t) fuel (i + 1) (dStep web (if t ≤ i then cancelEffect st else st))
       else (if t ≤ i then cancelEffect st else st)) := rfl

/-- If the plain run still has its guard up after `r` iterations, the run
with a stop scheduled at iteration `r` ends in exactly that state with the
cancellation flags applied. -/
theorem dRun_cancelAt (web : String → Option (List String)) :
    ∀ (r fuel i : Nat) (st : DState), r < fuel →
    dGuard (dRun web none r i st) = true →
    dRun web (some (i + r)) fuel i st = cancelEffect (dRun web none r i st) := by
  intro r
  induction r with
  | zero =>
    intro fuel i st hf _
    rcases fuel with _ | f
    · exact absurd hf (by omega)
    · rw [dRun_some_succ]
      rw [if_pos (show i + 0 ≤ i by omega)]
      rw [if_neg (show ¬(dGuard (cancelEffect st) = true) by rw [dGuard_cancelEffect]; simp)]
      rfl
  | succ r ih =>
    intro fuel i st hf hg
    rcases fuel with _ | f
    · exact absurd hf (by omega)
    · have hgst : dGuard st = true := by
        rw [dRun_none_succ] at hg
        by_cases hb : dGuard st = true
        · exact hb
        · rw [if_neg hb] at hg
          exact absurd hg hb
      have hg2 : dGuard (dRun web none r (i + 1) (dStep web st)) = true := by
        rw [dRun_none_succ, if_pos hgst] at hg
        exact hg
      rw [dRun_some_succ]
      rw [if_neg (show ¬(i + (r + 1) ≤ i) by omega)]
      rw [if_pos hgst]
      rw [show i + (r + 1) = (i + 1) + r by omega]
      rw [ih f (i + 1) (dStep web st) (by omega) hg2]
      rw [dRun_none_succ, if_pos hgst]

/-- Claim C5: if cancellation is requested mid-run (the plain run would
still be going after `t` pages), the session ends with `cancelRequested`
set, and the persisted record carries exactly the products accumulated in
those `t` iterations and `stats.crawlCompleted = false`. -/
theorem cancel_midrun_persists (web : String → Option (List String)) (t fuel : Nat)
    (st : DState) (hf : t < fuel) (hmid : dGuard (dRun web none t 0 st) = true) :
    (saveCrawlResult (dRun web (some t) fuel 0 st)).stats.crawlCompleted = false ∧
    (saveCrawlResult (dRun web (some t) fuel 0 st)).products =
      (dRun web none t 0 st).productLinks ∧
    (dRun web (some t) fuel 0 st).cancelRequested = true := by
  have h := dRun_cancelAt web t fuel 0 st hf hmid
  rw [Nat.zero_add] at h
  rw [h]
  exact ⟨rfl, rfl, rfl⟩

/-- Witness for C5 on the concrete scenario: cancel after 3 pages with 2
products found; the persisted record holds exactly those 2 products and
`crawlCompleted = false`. -/
theorem cancel_midrun_persists_witness :
    dGuard (dRun webC5 none 3 0 dInit) = true ∧
    (saveCrawlResult (dRun webC5 (some 3) 10 0 dInit)).stats.crawlCompleted = false ∧
    (saveCrawlResult (dRun webC5 (some 3) 10 0 dInit)).products = [p1L, p2L] ∧
    (dRun webC5 (some 3) 10 0 dInit).cancelRequested = true := by
  have h := cancel_midrun_persists webC5 3 10 dInit (by omega) (by decide)
  have hp : (dRun webC5 none 3 0 dInit).productLinks = [p1L, p2L] := by decide
  exact ⟨by decide, h.1, h.2.1.trans hp, h.2.2⟩

theorem lookupA_eraseA_self {α : Type} (l : List (String × α)) (d : String) :
    lookupA (eraseA l d) d = none := by
  induction l with
  | nil => rfl
  | cons p t ih =>
    unfold eraseA
    by_cases hk : p.1 = d
    · rw [if_pos hk]
      exact ih
    · rw [if_neg hk]
      unfold lookupA
      rw [if_neg hk]
      exact ih

theorem lookupA_eraseA_none {α : Type} (l : List (String × α)) (d x : String)
    (h : lookupA l x = none) : lookupA (eraseA l d) x = none := by
  induction l with
  | nil => rfl
  | cons p t ih =>
    unfold lookupA at h
    by_cases hx : p.1 = x
    · rw [if_pos hx] at h
      cases h
    · rw [if_neg hx] at h
      unfold eraseA
      by_cases hk : p.1 = d
      · rw [if_pos hk]
        exact ih h
      · rw [if_neg hk]
        unfold lookupA
        rw [if_neg hx]
        exact ih h

theorem lookupA_some_mem_keys {α : Type} (l : List (String × α)) (d : String) (c : α)
    (h : lookupA l d = some c) : d ∈ l.map (fun p => p.1) := by
  induction l with
  | nil => cases h
  | cons p t ih =>
    unfold lookupA at h
    by_cases hk : p.1 = d
    · rw [List.map_cons, hk]
      exact List.mem_cons_self ..
    · rw [if_neg hk] at h
      exact List.mem_cons_of_mem _ (ih h)

theorem stopCrawlerReg_preserves_none (r : Registry) (d2 x : String)
    (h : lookupA r.activeCrawlers x = none) :
    lookupA ((stopCrawlerReg r d2).1).activeCrawlers x = none := by
  unfold stopCrawlerReg
  rcases hl : lookupA r.activeCrawlers d2 with _ | c
  · exact h
  · exact lookupA_eraseA_none _ d2 x h

theorem watchdog_fold_lookup_none (reg : Registry) (now : Nat) (d : String) :
    ∀ (ds : List String) (r : Registry),
    (lookupA r.activeCrawlers d = none ∨ (d ∈ ds ∧ isStalled reg now d = true)) →
    lookupA ((ds.foldl
      (fun r2 d2 => if isStalled reg now d2 then (stopCrawlerReg r2 d2).1 else r2)
      r).activeCrawlers) d = none := by
  intro ds
  induction ds with
  | nil =>
    intro r h
    rcases h with h | ⟨hm, _⟩
    · exact h
    · cases hm
  | cons d2 t ih =>
    intro r h
    rw [List.foldl_cons]
    rcases h with h | ⟨hm, hst⟩
    · refine ih _ (Or.inl ?_)
      by_cases hs : isStalled reg now d2 = true
      · rw [if_pos hs]
        exact stopCrawlerReg_preserves_none r d2 d h
      · rw [if_neg hs]
        exact h
    · by_cases hd : d2 = d
      · subst hd
        rw [if_pos hst]
        refine ih _ (Or.inl ?_)
        unfold stopCrawlerReg
        rcases hl : lookupA r.activeCrawlers d2 with _ | c
        · exact hl
        · exact lookupA_eraseA_self _ d2
      · rcases List.mem_cons.mp hm with h1 | h1
        · exact absurd h1.symm hd
        · exact ih _ (Or.inr ⟨h1, hst⟩)

theorem dGuard_stoppedStateOf (c : DState) : dGuard (stoppedStateOf c) = false := by
  unfold dGuard stoppedStateOf
  simp

theorem dRun_none_of_guard_false (web : String → Option (List String)) (st : DState)
    (h : dGuard st = false) : ∀ (fuel i : Nat), dRun web none fuel i st = st := by
  intro fuel
  induction fuel with
  | zero => intro i; rfl
  | succ f ih =>
    intro i
    rw [dRun_none_succ, if_neg (by rw [h]; simp)]

/-- Claim C6: at any watchdog firing, every registered session whose last
heartbeat is older than `3 × HEARTBEAT_INTERVAL` is force-terminated through
`stopCrawler` (no external `stopSession` call involved): it is deregistered,
its crawler object gets `cancelRequested` set and its queue cleared, the
session's loop then ends immediately, and the record it persists carries the
products accumulated so far with `crawlCompleted = false`. -/
theorem watchdog_force_stop_persists (reg : Registry) (d : String) (c : DState)
    (h0 now : Nat) (web : String → Option (List String)) (fuel i : Nat)
    (hc : lookupA reg.activeCrawlers d = some c)
    (hh : lookupA reg.heartbeats d = some h0)
    (hstale : h0 + 3 * heartbeatInterval < now) :
    isStalled reg now d = true ∧
    lookupA (watchdogTick now reg).activeCrawlers d = none ∧
    (stopCrawlerReg reg d).2.1 = some (stoppedStateOf c) ∧
    dRun web none fuel i (stoppedStateOf c) = stoppedStateOf c ∧
    (saveCrawlResult (stoppedStateOf c)).products = c.productLinks ∧
    (saveCrawlResult (stoppedStateOf c)).stats.crawlCompleted = false := by
  have hstall : isStalled reg now d = true := by
    unfold isStalled heartbeatOf
    rw [hc, hh]
    dsimp only
    exact decide_eq_true (by unfold heartbeatInterval at hstale ⊢; omega)
  refine ⟨hstall, ?_, ?_, ?_, rfl, rfl⟩
  · unfold watchdogTick
    exact watchdog_fold_lookup_none reg now d _ reg
      (Or.inr ⟨lookupA_some_mem_keys _ d c hc, hstall⟩)
  · unfold stopCrawlerReg
    rw [hc]
  · exact dRun_none_of_guard_false web _ (dGuard_stoppedStateOf c) fuel i

/-- Witness for C6 on a one-session registry with a stale heartbeat. -/
theorem watchdog_force_stop_persists_witness :
    isStalled regW6 20001 "a.com" = true ∧
    lookupA (watchdogTick 20001 regW6).activeCrawlers "a.com" = none ∧
    (stopCrawlerReg regW6 "a.com").2.1 = some (stoppedStateOf dInit) ∧
    dRun webC5 none 5 0 (stoppedStateOf dInit) = stoppedStateOf dInit ∧
    (saveCrawlResult (stoppedStateOf dInit)).products = dInit.productLinks ∧
    (saveCrawlResult (stoppedStateOf dInit)).stats.crawlCompleted = false :=
  watchdog_force_stop_persists regW6 "a.com" dInit 1000 20001 webC5 5 0
    (by decide) (by decide) (by decide)

/-- Claim C7 counterexample: the service-layer `crawlDomain` of `part_003`
has no duplicate-session guard — starting `a.com` again constructs a fresh
crawler and its registration replaces the running session `cA`. -/
theorem crawlDomain3_overwrites_session_cex :
    lookupA regC7.activeCrawlers "a.com" = some cA ∧
    lookupA (crawlDomain3Start regC7 "a.com" 500 false 99999).activeCrawlers "a.com" =
      some (mkDState "a.com" 500 false) ∧
    mkDState "a.com" 500 false ≠ cA := by
  decide

/-- Claim C7 amended: the controller-layer `crawlDomain` of `part_004`
rejects a start for a domain with a registered crawler (`already_running`)
and leaves the registry untouched, but the service-layer `crawlDomain` of
`part_003` registers unconditionally, replacing any existing session. -/
theorem crawlDomain4_rejects_duplicate (reg : Registry4) (domain : String)
    (mp : Option Nat) (ind : Bool) (c : BC4)
    (h : lookupA reg.crawlers (getNormalizedDomain domain) = some c) :
    crawlDomain4Start reg domain mp ind = (reg, StartOutcome.alreadyRunning) := by
  unfold crawlDomain4Start
  dsimp only
  rw [h]

/-- Witness for C7's amended theorem. -/
theorem crawlDomain4_rejects_duplicate_witness :
    crawlDomain4Start reg4C7 "a.com" (some 500) false = (reg4C7, StartOutcome.alreadyRunning) :=
  crawlDomain4_rejects_duplicate reg4C7 "a.com" (some 500) false
    (mkBaseCrawler "a.com" (some 500) false) (by decide)

/-! ## The C8 link family -/

theorem mem_replicate_b_not_slash (i : Nat) : ∀ c ∈ List.replicate i 'b', c ≠ '/' := by
  intro c hc
  rw [List.eq_of_mem_replicate hc]
  decide

theorem qfDelim_path_family (i : Nat) :
    ∀ c ∈ '/' :: ("product/a".toList ++ List.replicate i 'b'), qfDelim c = false := by
  intro c hc
  rcases List.mem_cons.mp hc with h1 | h1
  · subst h1; rfl
  · rcases List.mem_append.mp h1 with h2 | h2
    · exact (by decide : ∀ c ∈ ("product/a" : String).toList, qfDelim c = false) c h2
    · rw [List.eq_of_mem_replicate h2]
      rfl

theorem serialize_mkLinkL (i : Nat) :
    serializeL ⟨"https".toList, "www.a.com".toList,
      '/' :: ("product/a".toList ++ List.replicate i 'b'), [], []⟩ = mkLinkL i := by
  unfold serializeL mkLinkL
  dsimp only
  rw [List.append_nil, List.append_nil]
  rw [show ("https://www.a.com/product/a" : String).toList =
    "https".toList ++ ':' :: '/' :: '/' :: ("www.a.com".toList ++ '/' :: "product/a".toList)
    from rfl]
  simp [List.append_assoc]

theorem parse_mkLinkL (i : Nat) :
    parseUrlL (mkLinkL i) = some ⟨"https".toList, "www.a.com".toList,
      '/' :: ("product/a".toList ++ List.replicate i 'b'), [], []⟩ := by
  rw [← serialize_mkLinkL i]
  exact parse_serialize _ (show schemeOk ("https" : String).toList = true by decide)
    (show authOk ("www.a.com" : String).toList = true by decide)
    (by intro c hc
        exact (by decide : ∀ c ∈ ("www.a.com" : String).toList, authDelim c = false) c hc)
    rfl (qfDelim_path_family i) rfl rfl

theorem parse_mkLink (i : Nat) :
    parseUrlL (mkLink i).toList = some ⟨"https".toList, "www.a.com".toList,
      '/' :: ("product/a".toList ++ List.replicate i 'b'), [], []⟩ :=
  parse_mkLinkL i

theorem lowerChars_mkLinkL (i : Nat) : lowerChars (mkLinkL i) = mkLinkL i := by
  unfold lowerChars mkLinkL
  rw [List.map_append, List.map_replicate]
  rw [show List.map Char.toLower ("https://www.a.com/product/a" : String).toList =
    ("https://www.a.com/product/a" : String).toList from by decide]
  rw [show Char.toLower 'b' = 'b' from by decide]

theorem mkLink_ne_empty (i : Nat) : mkLink i ≠ "" := by
  intro h
  have h2 : (mkLink i).toList = ("" : String).toList := congrArg String.toList h
  have h3 : (mkLink i).toList = mkLinkL i := rfl
  rw [h3] at h2
  unfold mkLinkL at h2
  simp at h2

theorem mkLink_inj (i j : Nat) (h : mkLink i = mkLink j) : i = j := by
  have h2 : mkLinkL i = mkLinkL j := congrArg String.toList h
  have h3 := congrArg List.length h2
  unfold mkLinkL at h3
  simp at h3
  exact h3

theorem scanFor_here (m : List Char → Bool) (l : List Char) (h : m l = true) :
    scanFor m l = true := by
  cases l with
  | nil => exact h
  | cons c t =>
    unfold scanFor
    rw [h]
    rfl

theorem hasDupSlash_all_nonslash (ys : List Char) (h : ∀ c ∈ ys, c ≠ '/') :
    hasDupSlash ys = false := by
  induction ys with
  | nil => rfl
  | cons c t ih =>
    rw [hasDupSlash_cons, ih (fun d hd => h d (List.mem_cons_of_mem _ hd))]
    have hc := h c (List.mem_cons_self ..)
    simp [hc]

theorem hasDupSlash_append_nonslash (xs ys : List Char) (h : ∀ c ∈ ys, c ≠ '/') :
    hasDupSlash (xs ++ ys) = hasDupSlash xs := by
  induction xs with
  | nil =>
    rw [List.nil_append]
    exact hasDupSlash_all_nonslash ys h
  | cons c t ih =>
    rw [List.cons_append, hasDupSlash_cons, hasDupSlash_cons, ih]
    suffices hh : headIsSlash (t ++ ys) = headIsSlash t by rw [hh]
    rcases t with _ | ⟨a, t2⟩
    · rw [List.nil_append]
      rcases ys with _ | ⟨b, ys2⟩
      · rfl
      · have hb := h b (List.mem_cons_self ..)
        rw [headIsSlash_cons]
        exact decide_eq_false hb
    · rfl

theorem lowerChars_mkLink (i : Nat) : lowerChars (mkLink i).toList = mkLinkL i :=
  lowerChars_mkLinkL i

theorem pat2_family (i : Nat) :
    afterPat "/product/".toList (headIs isWordDashC)
      ('/' :: ("product/a".toList ++ List.replicate i 'b')) = true := by
  unfold afterPat
  apply scanFor_here
  rw [show stripPfx "/product/".toList ('/' :: ("product/a".toList ++ List.replicate i 'b')) =
    some ('a' :: List.replicate i 'b') from rfl]
  rfl

theorem isSameDomain_mkLink (i : Nat) : isSameDomain (mkLink i) "a.com" = true := by
  unfold isSameDomain
  have hb : ¬((containsSeq "tatacliq.com".toList ("a.com" : String).toList &&
      containsSeq "luxury.tatacliq.com".toList (mkLink i).toList) = true) := by
    rw [show containsSeq "tatacliq.com".toList ("a.com" : String).toList = false from by decide]
    simp
  rw [if_neg hb, parse_mkLink i]
  rfl

theorem isProductUrl_mkLink (i : Nat) : isProductUrl (mkLink i) = true := by
  unfold isProductUrl
  rw [if_neg (mkLink_ne_empty i)]
  dsimp only
  rw [lowerChars_mkLink i, parse_mkLinkL i]
  dsimp only [JsUrl.hostname]
  rw [show takeUntil (fun x => decide (x = ':')) ("www.a.com" : String).toList =
    ("www.a.com" : String).toList from by decide]
  rw [show containsSeq "tatacliq.com".toList ("www.a.com" : String).toList = false from by decide]
  rw [show containsSeq "westside.com".toList ("www.a.com" : String).toList = false from by decide]
  rw [show containsSeq "nykaafashion.com".toList ("www.a.com" : String).toList = false from by
    decide]
  rw [show containsSeq "virgio.com".toList ("www.a.com" : String).toList = false from by decide]
  rw [show containsSeq "ajio.com".toList ("www.a.com" : String).toList = false from by decide]
  rw [show containsSeq "myntra.com".toList ("www.a.com" : String).toList = false from by decide]
  unfold pathnameProductPatterns
  rw [pat2_family i]
  simp

theorem shouldExcludeUrl_mkLink (i : Nat) : shouldExcludeUrl (mkLink i) = false := by
  unfold shouldExcludeUrl
  rw [if_pos (isProductUrl_mkLink i)]

theorem pathNorm_family (i : Nat) :
    pathNorm ('/' :: ("product/a".toList ++ List.replicate i 'b')) =
      '/' :: ("product/a".toList ++ List.replicate i 'b') := by
  have hdup : hasDupSlash ('/' :: ("product/a".toList ++ List.replicate i 'b')) = false := by
    rw [← List.cons_append, hasDupSlash_append_nonslash _ _ (mem_replicate_b_not_slash i)]
    decide
  have hrev : headIsSlash ('/' :: ("product/a".toList ++ List.replicate i 'b')).reverse
      = false := by
    rw [← List.cons_append, List.reverse_append, List.reverse_replicate]
    cases i with
    | zero => decide
    | succ j => rw [List.replicate_succ]; rfl
  unfold pathNorm
  rw [collapseSlashes_eq_self _ hdup, stripTrailingSlash_eq_self _ hrev,
    setPathname_of_headIsSlash ('/' :: ("product/a".toList ++ List.replicate i 'b')) rfl]

theorem normalizeUrl_mkLink (i : Nat) : normalizeUrl (mkLink i) = mkLink i := by
  unfold normalizeUrl
  rw [parse_mkLink i]
  dsimp only
  unfold normRec
  dsimp only
  rw [pathNorm_family i, serialize_mkLinkL i]
  rfl

/-- On a link that is non-empty, normalization-fixed, unseen, in-domain,
not excluded and classified as a product, `queueLinksStep` unshifts it. -/
theorem queueLinksStep_product (d : Nat) (st : BState) (l : String)
    (hne : l ≠ "") (hnorm : normalizeUrl l = l)
    (hvis : listHas st.visited l = false)
    (hq : st.queue.any (·.url == l) = false)
    (hdom : isSameDomain l st.domain = true)
    (hexcl : shouldExcludeUrl l = false)
    (hprod : isProductUrl l = true) :
    queueLinksStep d st l = { st with queue := ⟨l, d⟩ :: st.queue } := by
  unfold queueLinksStep
  rw [if_neg hne]
  dsimp only
  rw [hnorm, hvis, hq, hdom, hexcl]
  rw [if_neg (by simp)]
  rw [if_pos hprod]

/-- Feeding `queueLinksCore` a duplicate-free list of fresh in-domain product
links prepends them all, in reverse order of arrival. -/
theorem queueLinksCore_products (d : Nat) :
    ∀ (links : List String) (st : BState),
    (∀ l ∈ links, l ≠ "") →
    (∀ l ∈ links, normalizeUrl l = l) →
    (∀ l ∈ links, isProductUrl l = true) →
    (∀ l ∈ links, isSameDomain l st.domain = true) →
    (∀ l ∈ links, shouldExcludeUrl l = false) →
    (∀ l ∈ links, listHas st.visited l = false) →
    (∀ l ∈ links, st.queue.any (·.url == l) = false) →
    links.Nodup →
    (queueLinksCore st links d).queue
      = (links.map (fun l => (⟨l, d⟩ : QItem))).reverse ++ st.queue := by
  intro links
  induction links with
  | nil => intro st _ _ _ _ _ _ _ _; rfl
  | cons l t ih =>
    intro st h1 h2 h3 h4 h5 h6 h7 h8
    have hmem : l ∈ l :: t := List.mem_cons_self l t
    have hstep := queueLinksStep_product d st l (h1 l hmem) (h2 l hmem)
      (h6 l hmem) (h7 l hmem) (h4 l hmem) (h5 l hmem) (h3 l hmem)
    have hnd := List.nodup_cons.mp h8
    have hq2 : ∀ x ∈ t, ((⟨l, d⟩ :: st.queue).any (·.url == x)) = false := by
      intro x hx
      rw [List.any_cons]
      have hlx : l ≠ x := fun he => hnd.1 (he ▸ hx)
      have h1x : ((⟨l, d⟩ : QItem).url == x) = false := by
        dsimp only
        exact beq_eq_false_iff_ne.mpr hlx
      rw [h1x, Bool.false_or]
      exact h7 x (List.mem_cons_of_mem l hx)
    have hrec := ih { st with queue := ⟨l, d⟩ :: st.queue }
      (fun x hx => h1 x (List.mem_cons_of_mem l hx))
      (fun x hx => h2 x (List.mem_cons_of_mem l hx))
      (fun x hx => h3 x (List.mem_cons_of_mem l hx))
      (fun x hx => h4 x (List.mem_cons_of_mem l hx))
      (fun x hx => h5 x (List.mem_cons_of_mem l hx))
      (fun x hx => h6 x (List.mem_cons_of_mem l hx))
      hq2
      hnd.2
    unfold queueLinksCore at hrec ⊢
    rw [List.foldl_cons, hstep, hrec, List.map_cons, List.reverse_cons,
      List.append_assoc]
    rfl

/-- Every member of `cexLinks` is some `mkLink i`. -/
theorem mem_cexLinks (l : String) (hl : l ∈ cexLinks) : ∃ i : Nat, l = mkLink i := by
  unfold cexLinks at hl
  rcases List.mem_cons.mp hl with h | h
  · exact ⟨0, h⟩
  · obtain ⟨j, _, hj⟩ := List.mem_map.mp h
    exact ⟨j + 1, hj.symm⟩

/-- The 1001 counterexample links are pairwise distinct. -/
theorem cexLinks_nodup : cexLinks.Nodup := by
  unfold cexLinks
  rw [List.nodup_cons]
  refine ⟨?_, ?_⟩
  · intro hmem
    obtain ⟨j, _, hj⟩ := List.mem_map.mp hmem
    have := mkLink_inj _ _ hj
    omega
  · refine List.Nodup.map ?_ (List.nodup_range 1000)
    intro a b hab
    have := mkLink_inj _ _ hab
    omega

/-- The untrimmed queue after feeding `cexLinks` into an idle crawler. -/
theorem cexCore_queue :
    (queueLinksCore st0 cexLinks 1).queue
      = (cexLinks.map (fun l => (⟨l, 1⟩ : QItem))).reverse := by
  have h := queueLinksCore_products 1 cexLinks st0
    (fun l hl => by obtain ⟨i, rfl⟩ := mem_cexLinks l hl; exact mkLink_ne_empty i)
    (fun l hl => by obtain ⟨i, rfl⟩ := mem_cexLinks l hl; exact normalizeUrl_mkLink i)
    (fun l hl => by obtain ⟨i, rfl⟩ := mem_cexLinks l hl; exact isProductUrl_mkLink i)
    (fun l hl => by obtain ⟨i, rfl⟩ := mem_cexLinks l hl; exact isSameDomain_mkLink i)
    (fun l hl => by obtain ⟨i, rfl⟩ := mem_cexLinks l hl; exact shouldExcludeUrl_mkLink i)
    (fun l _ => rfl)
    (fun l _ => rfl)
    cexLinks_nodup
  rw [h]
  simp [st0]

/-- The untrimmed queue holds all 1001 links. -/
theorem cexCore_len : (queueLinksCore st0 cexLinks 1).queue.length = 1001 := by
  rw [cexCore_queue, List.length_reverse, List.length_map]
  unfold cexLinks
  rw [List.length_cons, List.length_map, List.length_range]

/-- When the post-loop queue exceeds 1000 entries, the trim keeps the first
1000 array entries. -/
theorem queueLinks_trim_eq (st : BState) (links : List String) (d : Nat)
    (h : 1000 < (queueLinksCore st links d).queue.length) :
    (queueLinks st links d).queue = (queueLinksCore st links d).queue.take 1000 := by
  unfold queueLinks
  dsimp only
  rw [if_pos h]

/-- The trimmed queue is exactly the 1000 later links, the earliest gone. -/
theorem cexFinal_queue :
    (queueLinks st0 cexLinks 1).queue
      = (((List.range 1000).map (fun j => mkLink (j + 1))).map
          (fun l => (⟨l, 1⟩ : QItem))).reverse := by
  rw [queueLinks_trim_eq st0 cexLinks 1 (by rw [cexCore_len]; omega), cexCore_queue]
  unfold cexLinks
  rw [List.map_cons, List.reverse_cons]
  have hlen : (((List.range 1000).map (fun j => mkLink (j + 1))).map
      (fun l => (⟨l, 1⟩ : QItem))).reverse.length = 1000 := by
    rw [List.length_reverse, List.length_map, List.length_map, List.length_range]
  exact List.take_left' hlen

/-- Claim C8 counterexample: after queueing 1001 fresh product links into an
idle crawler, the oldest product link `mkLink 0` sits at the back of the
array (products are unshifted), the untrimmed queue has 1001 entries, and
the `slice(0, 1000)` trim keeps the array head, so the trimmed queue has
1000 entries none of which is `mkLink 0` — the trim evicts a product URL,
not the lowest-priority generic tail the claim describes. -/
theorem frontier_trim_drops_product_cex :
    isProductUrl (mkLink 0) = true ∧
    ((queueLinksCore st0 cexLinks 1).queue.map (fun it => it.url)).getLast?
      = some (mkLink 0) ∧
    (queueLinksCore st0 cexLinks 1).queue.length = 1001 ∧
    (queueLinks st0 cexLinks 1).queue.length = 1000 ∧
    (queueLinks st0 cexLinks 1).queue.all (fun it => it.url != mkLink 0) = true := by
  refine ⟨isProductUrl_mkLink 0, ?_, cexCore_len, ?_, ?_⟩
  · rw [cexCore_queue, List.map_reverse, List.getLast?_reverse]
    unfold cexLinks
    rw [List.map_cons, List.map_cons, List.head?_cons]
  · rw [cexFinal_queue, List.length_reverse, List.length_map, List.length_map,
      List.length_range]
  · rw [cexFinal_queue, List.all_eq_true]
    intro it hit
    rw [List.mem_reverse] at hit
    obtain ⟨l, hl, rfl⟩ := List.mem_map.mp hit
    obtain ⟨j, _, rfl⟩ := List.mem_map.mp hl
    show (mkLink (j + 1) != mkLink 0) = true
    rw [bne_iff_ne]
    intro h
    have := mkLink_inj _ _ h
    omega

/-- Claim C8: when the post-loop queue exceeds the 1000-entry cap,
`queueLinks` replaces it with `queue.slice(0, 1000)` — the first 1000
array entries — leaving exactly 1000 entries. -/
theorem queueLinks_capacity_bound (st : BState) (links : List String) (d : Nat)
    (h : 1000 < (queueLinksCore st links d).queue.length) :
    (queueLinks st links d).queue = (queueLinksCore st links d).queue.take 1000 ∧
    (queueLinks st links d).queue.length = 1000 := by
  refine ⟨queueLinks_trim_eq st links d h, ?_⟩
  rw [queueLinks_trim_eq st links d h, List.length_take]
  omega

/-- Witness for `queueLinks_capacity_bound` at the 1001-link instance. -/
theorem queueLinks_capacity_bound_witness :
    (queueLinks st0 cexLinks 1).queue
        = (queueLinksCore st0 cexLinks 1).queue.take 1000 ∧
    (queueLinks st0 cexLinks 1).queue.length = 1000 :=
  queueLinks_capacity_bound st0 cexLinks 1 (by rw [cexCore_len]; omega)


end Ecom
